import Mathlib

/-!
Shallow embedding of the storage backend (markmaestre/Storage).

The embedding models the Mongo collections as in-memory lists and each
Express route handler in src/backend/routes/files.js as a pure function
from a database state (plus request parameters) to either an error kind
or a new database state.  The mongoose pre-save hook of
src/backend/models/File.js is modelled by applySaveHook, applied at every
point the JS code calls .save() or constructs-and-saves a document.
StorageStats.updateUserStats (src/backend/models/StorageStats.js) is the
full recomputation updateUserStats below.  Timestamps are Nat
milliseconds passed in as a parameter wherever the code calls Date.now().
-/

namespace Storage

/-- Sharing permission, the enum of sharedWith[].permission in File.js. -/
inductive Perm where
  | view
  | edit
deriving DecidableEq, Repr

/-- One entry of a node's sharedWith array (File.js). -/
structure Share where
  user : Nat
  permission : Perm
  sharedAt : Nat
deriving DecidableEq, Repr

/-- A document of the File collection (src/backend/models/File.js), files
and folders alike.  Fields not used by any claim (content, tags,
documentMetadata, isPublic, version) are omitted. -/
structure File where
  id : Nat
  userId : Nat
  name : String
  originalName : String
  type : String
  size : Nat
  path : Option String
  parentFolder : Option Nat
  isFolder : Bool
  sharedWith : List Share
  inTrash : Bool
  deletedAt : Option Nat
  permanentDeleteAt : Option Nat
deriving DecidableEq, Repr

/-- A document of the StorageStats collection
(src/backend/models/StorageStats.js). -/
structure StorageStats where
  userId : Nat
  totalFiles : Nat
  totalFolders : Nat
  totalSize : Nat
  usedStorage : Nat
  fileTypeBreakdown : List (String × Nat)
  lastCalculated : Nat
deriving DecidableEq, Repr

/-- The database state: the File collection, the StorageStats collection,
and a counter supplying fresh ObjectIds. -/
structure DB where
  nodes : List File
  stats : List StorageStats
  nextId : Nat
deriving DecidableEq, Repr

/-- The mongoose pre-save middleware of File.js: a folder being saved gets
type "folder", size 0, path null, and originalName set to its name. -/
def applySaveHook (n : File) : File :=
  if n.isFolder then
    { n with type := "folder", size := 0, path := none, originalName := n.name }
  else n

/-- File.findById: look a node up by id, over all users. -/
def findNode (db : DB) (id : Nat) : Option File :=
  db.nodes.find? (fun n => decide (n.id = id))

/-- File.findOne with a userId filter, as used by rename, move, copy,
trash, restore and delete. -/
def findOwned (db : DB) (uid fid : Nat) : Option File :=
  db.nodes.find? (fun n => decide (n.id = fid) && decide (n.userId = uid))

/-- The move/copy target-folder lookup.  Note: the query filters on owner
and isFolder but NOT on inTrash (files.js, POST /:fileId/move). -/
def findTarget (db : DB) (uid t : Nat) : Option File :=
  db.nodes.find? (fun n => decide (n.id = t) && (decide (n.userId = uid) && n.isFolder))

/-- The lookup of POST /:fileId/restore: owned AND currently in trash. -/
def findTrashed (db : DB) (uid fid : Nat) : Option File :=
  db.nodes.find? (fun n => decide (n.id = fid) && (decide (n.userId = uid) && n.inTrash))

/-- StorageStats.findOne for a user. -/
def findStats (db : DB) (uid : Nat) : Option StorageStats :=
  db.stats.find? (fun s => decide (s.userId = uid))

/-- Replace the stored document with the saved (hook-applied) version,
keyed by id; this is what doc.save() amounts to for an existing doc. -/
def saveNode (db : DB) (n : File) : DB :=
  { db with nodes := db.nodes.map (fun m => if m.id = n.id then applySaveHook n else m) }

/-- Append a freshly constructed document (hook applied) and advance the
id counter; this is new File({...}).save(). -/
def insertNode (db : DB) (n : File) : DB :=
  { db with nodes := db.nodes ++ [applySaveHook n], nextId := db.nextId + 1 }

/-- Error kinds of the route handlers, one per distinct 4xx response body
in files.js:
NameRequired = "Folder name is required" / "New name is required";
NoFile = "No files uploaded";
NotFound = "File not found" / "Target folder not found";
DuplicateName = "A folder with this name already exists in this location";
InvalidParent = "Parent folder not found or access denied";
QuotaExceeded = "Storage limit exceeded...";
InvalidMove = "Cannot move folder into itself";
CyclicMove = "Cannot move folder into its own subfolder";
AlreadyShared = "File already shared with this user";
SelfShare = "Cannot share file with yourself". -/
inductive Err where
  | NameRequired
  | NoFile
  | NotFound
  | DuplicateName
  | InvalidParent
  | QuotaExceeded
  | InvalidMove
  | CyclicMove
  | AlreadyShared
  | SelfShare
deriving DecidableEq, Repr

/-- Run a fallible operation, keeping the old state on error.  A route
that answers a 4xx before any save leaves the database untouched. -/
def okD (e : Except Err DB) (db : DB) : DB :=
  match e with
  | .ok db' => db'
  | .error _ => db

/-- Whether an Except carries a success. -/
def isOk (e : Except Err DB) : Bool :=
  match e with
  | .ok _ => true
  | .error _ => false

/-- Drop leading whitespace characters. -/
def dropWs : List Char → List Char
  | [] => []
  | c :: cs => if c.isWhitespace then dropWs cs else c :: cs

/-- JavaScript String.prototype.trim, as a structurally recursive function
on the character list (String.trim of the Lean core library is
extensionally the same but does not reduce in the kernel). -/
def strTrim (s : String) : String :=
  { data := (dropWs (dropWs s.data).reverse).reverse }

/-- Whether the first list is a prefix of the second. -/
def charsStart : List Char → List Char → Bool
  | [], _ => true
  | _ :: _, [] => false
  | p :: ps, c :: cs => p == c && charsStart ps cs

/-- Whether pat occurs as a contiguous sublist. -/
def charsHasSub (pat : List Char) : List Char → Bool
  | [] => charsStart pat []
  | c :: cs => charsStart pat (c :: cs) || charsHasSub pat cs

/-- JavaScript String.prototype.startsWith. -/
def strStarts (s t : String) : Bool :=
  charsStart t.data s.data

/-- JavaScript String.prototype.includes, used by getFileTypeFromMime. -/
def strIncludes (s t : String) : Bool :=
  charsHasSub t.data s.data

def getFileTypeFromMime (mimeType : String) : String :=
  if strStarts mimeType "image/" then "image"
  else if strStarts mimeType "video/" then "video"
  else if strStarts mimeType "audio/" then "audio"
  else if strIncludes mimeType "pdf" then "pdf"
  else if strIncludes mimeType "zip" || strIncludes mimeType "rar" ||
          strIncludes mimeType "tar" || strIncludes mimeType "7z" then "archive"
  else if strIncludes mimeType "text" || strIncludes mimeType "plain" then "text"
  else if strIncludes mimeType "javascript" || strIncludes mimeType "python" ||
          strIncludes mimeType "java" || strIncludes mimeType "cpp" ||
          strIncludes mimeType "html" || strIncludes mimeType "css" then "code"
  else "document"

/-- The hardcoded storage limit used by both upload quota checks in
files.js (16106127360 bytes = 15 GB).  There is no per-user or
configurable limit anywhere in the code. -/
def storageLimit : Nat := 16106127360

/-- A user's non-trashed nodes, the $match of updateUserStats. -/
def nonTrashed (db : DB) (uid : Nat) : List File :=
  db.nodes.filter (fun n => decide (n.userId = uid) && !n.inTrash)

/-- The type enum of the File schema, which is also the fixed key set of
fileTypeBreakdown in StorageStats.js. -/
def typeNames : List String :=
  ["document", "image", "video", "audio", "pdf", "spreadsheet",
   "presentation", "archive", "text", "code", "folder"]

/-- The aggregation of StorageStats.updateUserStats: counts and sizes over
the user's non-trashed nodes. -/
def computeStats (db : DB) (uid now : Nat) : StorageStats :=
  { userId := uid
  , totalFiles := ((nonTrashed db uid).filter (fun n => !n.isFolder)).length
  , totalFolders := ((nonTrashed db uid).filter (fun n => n.isFolder)).length
  , totalSize := ((nonTrashed db uid).map (fun n => n.size)).sum
  , usedStorage := ((nonTrashed db uid).map (fun n => n.size)).sum
  , fileTypeBreakdown :=
      typeNames.map (fun t => (t, ((nonTrashed db uid).filter (fun n => decide (n.type = t))).length))
  , lastCalculated := now }

/-- findOneAndUpdate with upsert on the StorageStats collection. -/
def upsertStats (l : List StorageStats) (st : StorageStats) : List StorageStats :=
  if l.any (fun s => decide (s.userId = st.userId)) then
    l.map (fun s => if s.userId = st.userId then st else s)
  else l ++ [st]

/-- StorageStats.updateUserStats: full recomputation from the File
collection, stored back into the stats collection. -/
def updateUserStats (db : DB) (uid now : Nat) : DB :=
  { db with stats := upsertStats db.stats (computeStats db uid now) }

/-- The duplicate check of POST /folders: a non-trashed FOLDER with the
same (trimmed) name directly under the same parent, same owner. -/
def dupFolder (db : DB) (uid : Nat) (name : String) (parent : Option Nat) : Bool :=
  db.nodes.any (fun n =>
    decide (n.userId = uid) && decide (n.name = name) && n.isFolder &&
    decide (n.parentFolder = parent) && !n.inTrash)

/-- POST /folders (files.js).  Checks only that the name is non-empty and
that no duplicate folder exists; it performs NO validation of
parentFolder whatsoever. -/
def createFolder (db : DB) (uid : Nat) (name : String) (parent : Option Nat) :
    Except Err DB :=
  if strTrim name = "" then .error .NameRequired
  else if dupFolder db uid (strTrim name) parent then .error .DuplicateName
  else
    .ok (insertNode db
      { id := db.nextId, userId := uid, name := strTrim name,
        originalName := strTrim name, type := "folder", size := 0, path := none,
        parentFolder := parent, isFolder := true, sharedWith := [],
        inTrash := false, deletedAt := none, permanentDeleteAt := none })

/-- The parent-folder validation of POST /upload and
POST /upload-multiple: when a parent is given it must be an existing,
owned, non-trashed folder. -/
def parentOk (db : DB) (uid : Nat) : Option Nat → Bool
  | none => true
  | some pid =>
      db.nodes.any (fun n =>
        decide (n.id = pid) && decide (n.userId = uid) && n.isFolder && !n.inTrash)

/-- The single-upload quota check of POST /upload: it only fires when a
StorageStats document already exists for the user. -/
def quotaBlocked (db : DB) (uid size : Nat) : Bool :=
  match findStats db uid with
  | none => false
  | some st => decide (st.usedStorage + size > storageLimit)

/-- POST /upload (files.js): validate parent, quota-check against the
hardcoded limit, save the new file document, then recompute stats.
No duplicate-name check of any kind is performed. -/
def uploadFile (db : DB) (uid : Nat) (originalname mimetype : String)
    (size : Nat) (parent : Option Nat) (now : Nat) : Except Err DB :=
  if !parentOk db uid parent then .error .InvalidParent
  else if quotaBlocked db uid size then .error .QuotaExceeded
  else
    let db1 := insertNode db
      { id := db.nextId, userId := uid, name := originalname,
        originalName := originalname, type := getFileTypeFromMime mimetype,
        size := size, path := some originalname, parentFolder := parent,
        isFolder := false, sharedWith := [], inTrash := false,
        deletedAt := none, permanentDeleteAt := none }
    .ok (updateUserStats db1 uid now)

/-- Insert a batch of uploads (name, mimetype, size), ids drawn in order. -/
def insertUploads (db : DB) (uid : Nat) (parent : Option Nat) :
    List (String × String × Nat) → DB
  | [] => db
  | (nm, mt, sz) :: rest =>
      insertUploads
        (insertNode db
          { id := db.nextId, userId := uid, name := nm, originalName := nm,
            type := getFileTypeFromMime mt, size := sz, path := some nm,
            parentFolder := parent, isFolder := false, sharedWith := [],
            inTrash := false, deletedAt := none, permanentDeleteAt := none })
        uid parent rest

/-- The multi-upload's current usage: a missing stats document counts as
0 (unlike the single upload, which then skips the check). -/
def usedOrZero (db : DB) (uid : Nat) : Nat :=
  match findStats db uid with
  | none => 0
  | some st => st.usedStorage

/-- POST /upload-multiple (files.js).  Unlike the single upload, the quota
check here treats a missing stats document as usage 0 and fires on the
summed size. -/
def uploadMultiple (db : DB) (uid : Nat) (files : List (String × String × Nat))
    (parent : Option Nat) (now : Nat) : Except Err DB :=
  if files.isEmpty then .error .NoFile
  else if !parentOk db uid parent then .error .InvalidParent
  else if usedOrZero db uid + (files.map (fun f => f.2.2)).sum > storageLimit then
    .error .QuotaExceeded
  else
    .ok (updateUserStats (insertUploads db uid parent files) uid now)

/-- PATCH /:fileId/rename (files.js): only checks that the new name is
non-empty and the node is owned.  There is NO duplicate-name check. -/
def renameFile (db : DB) (uid fid : Nat) (newName : String) : Except Err DB :=
  if strTrim newName = "" then .error .NameRequired
  else
    match findOwned db uid fid with
    | none => .error .NotFound
    | some f => .ok (saveNode db { f with name := strTrim newName })

/-- The checkIfSubfolder helper of files.js: walk the parent chain upward
from parentFolderId, returning true when potentialSubfolderId is met.
The JS while-loop is modelled with explicit fuel; with fuel
db.nodes.length + 1 the model agrees with the JS loop on every input on
which that loop terminates, since a terminating walk visits pairwise
distinct nodes. -/
def checkWalk (db : DB) (target : Nat) : Nat → Nat → Bool
  | 0, _ => false
  | fuel + 1, cur =>
    match findNode db cur with
    | none => false
    | some f =>
      if cur = target then true
      else
        match f.parentFolder with
        | none => false
        | some p => checkWalk db target fuel p

def checkIfSubfolder (db : DB) (parentFolderId potentialSubfolderId : Nat) : Bool :=
  checkWalk db potentialSubfolderId (db.nodes.length + 1) parentFolderId

/-- POST /:fileId/move (files.js).  The self-move and subfolder (cycle)
checks run only when the moved node is a folder; a null target skips all
target validation and moves to root. -/
def moveFile (db : DB) (uid fid : Nat) (target : Option Nat) : Except Err DB :=
  match findOwned db uid fid with
  | none => .error .NotFound
  | some f =>
    match target with
    | none => .ok (saveNode db { f with parentFolder := none })
    | some t =>
      match findTarget db uid t with
      | none => .error .NotFound
      | some _ =>
        if f.isFolder && decide (fid = t) then .error .InvalidMove
        else if f.isFolder && checkIfSubfolder db t fid then .error .CyclicMove
        else .ok (saveNode db { f with parentFolder := some t })

/-- The copy document constructed by POST /:fileId/copy: it carries the
original's type, size, path and isFolder, is named with a " (Copy)"
suffix, and is placed under the target. -/
def copyDoc (db : DB) (uid : Nat) (orig : File) (target : Option Nat) : File :=
  { id := db.nextId, userId := uid, name := orig.name ++ " (Copy)",
    originalName := orig.originalName, type := orig.type,
    size := orig.size, path := orig.path, parentFolder := target,
    isFolder := orig.isFolder, sharedWith := [], inTrash := false,
    deletedAt := none, permanentDeleteAt := none }

/-- POST /:fileId/copy (files.js).  It does NOT call updateUserStats. -/
def copyFile (db : DB) (uid fid : Nat) (target : Option Nat) : Except Err DB :=
  match findOwned db uid fid with
  | none => .error .NotFound
  | some orig =>
    match target with
    | none => .ok (insertNode db (copyDoc db uid orig none))
    | some t =>
      match findTarget db uid t with
      | none => .error .NotFound
      | some _ => .ok (insertNode db (copyDoc db uid orig (some t)))

/-- POST /:fileId/share (files.js), after the email has been resolved to a
user id by the route. -/
def shareFile (db : DB) (uid fid targetUser : Nat) (perm : Perm) (now : Nat) :
    Except Err DB :=
  if targetUser = uid then .error .SelfShare
  else
    match findOwned db uid fid with
    | none => .error .NotFound
    | some f =>
      if f.sharedWith.any (fun s => decide (s.user = targetUser)) then
        .error .AlreadyShared
      else
        .ok (saveNode db
          { f with sharedWith :=
              f.sharedWith ++ [{ user := targetUser, permission := perm, sharedAt := now }] })

/-- The 30-day retention window in milliseconds (files.js, POST trash). -/
def retentionMs : Nat := 30 * 24 * 60 * 60 * 1000

/-- The field updates performed by POST /:fileId/trash before save. -/
def trashedVersion (f : File) (now : Nat) : File :=
  { f with
    inTrash := true
    deletedAt := some now
    permanentDeleteAt := some (now + retentionMs) }

/-- The field updates performed by POST /:fileId/restore before save. -/
def restoredVersion (f : File) : File :=
  { f with
    inTrash := false
    deletedAt := none
    permanentDeleteAt := none }

/-- POST /:fileId/trash (files.js).  The lookup does NOT require the node
to be active, so re-trashing an already-trashed node succeeds and resets
both timestamps.  Stats are recomputed afterwards. -/
def trashFile (db : DB) (uid fid now : Nat) : Except Err DB :=
  match findOwned db uid fid with
  | none => .error .NotFound
  | some f => .ok (updateUserStats (saveNode db (trashedVersion f now)) uid now)

/-- POST /:fileId/restore (files.js): lookup requires inTrash true; clears
the trash flag and both timestamps, then recomputes stats. -/
def restoreFile (db : DB) (uid fid now : Nat) : Except Err DB :=
  match findTrashed db uid fid with
  | none => .error .NotFound
  | some f => .ok (updateUserStats (saveNode db (restoredVersion f)) uid now)

/-- DELETE /:fileId (files.js).  File.findByIdAndDelete removes exactly
the one document (mongoose query deletion does not fire the pre-remove
document middleware of File.js, so children of a deleted folder are NOT
touched), then stats are recomputed. -/
def deleteFile (db : DB) (uid fid now : Nat) : Except Err DB :=
  match findOwned db uid fid with
  | none => .error .NotFound
  | some _ =>
    .ok (updateUserStats
      { db with nodes := db.nodes.filter (fun n => !decide (n.id = fid)) }
      uid now)

/-- DELETE /trash/empty (files.js): deleteMany of the user's trashed
nodes, then one stats recomputation. -/
def emptyTrash (db : DB) (uid now : Nat) : Except Err DB :=
  .ok (updateUserStats
    { db with nodes :=
        db.nodes.filter (fun n => !(decide (n.userId = uid) && n.inTrash)) }
    uid now)

/-- File.canEdit (File.js): the owner, or a grantee whose share permission
is edit.  The trash flag is NOT consulted. -/
def canEdit (n : File) (uid : Nat) : Bool :=
  if n.userId = uid then true
  else
    match n.sharedWith.find? (fun s => decide (s.user = uid)) with
    | none => false
    | some s => decide (s.permission = Perm.edit)

/-- The access predicate of GET /:fileId/download (files.js): owner or any
grantee; the query has NO inTrash filter. -/
def downloadPred (n : File) (uid : Nat) : Bool :=
  n.userId = uid || n.sharedWith.any (fun s => decide (s.user = uid))

def downloadFind (db : DB) (uid fid : Nat) : Option File :=
  db.nodes.find? (fun n => decide (n.id = fid) && downloadPred n uid)

/-- GET /shared (files.js): nodes shared with the user, filtered to
inTrash false. -/
def sharedFiles (db : DB) (uid : Nat) : List File :=
  db.nodes.filter (fun n =>
    n.sharedWith.any (fun s => decide (s.user = uid)) && !n.inTrash)

/-- File.calculateFolderSize (File.js): despite its comment, it sums the
sizes of the DIRECT child files of the folder only (a single find on
parentFolder, no recursion). -/
def calculateFolderSize (db : DB) (folderId : Nat) : Nat :=
  ((db.nodes.filter (fun n =>
      decide (n.parentFolder = some folderId) && !n.isFolder)).map
    (fun n => n.size)).sum

/-- The mutating operations of the backend, for statements quantifying
over arbitrary operation sequences. -/
inductive Op where
  | createFolder (uid : Nat) (name : String) (parent : Option Nat)
  | upload (uid : Nat) (name mime : String) (size : Nat) (parent : Option Nat) (now : Nat)
  | uploadMany (uid : Nat) (files : List (String × String × Nat)) (parent : Option Nat) (now : Nat)
  | rename (uid fid : Nat) (newName : String)
  | move (uid fid : Nat) (target : Option Nat)
  | copy (uid fid : Nat) (target : Option Nat)
  | share (uid fid targetUser : Nat) (perm : Perm) (now : Nat)
  | trash (uid fid now : Nat)
  | restore (uid fid now : Nat)
  | delete (uid fid now : Nat)
  | emptyTrash (uid now : Nat)

/-- Apply one operation, keeping the state on a 4xx error. -/
def applyOp (db : DB) : Op → DB
  | .createFolder uid name parent => okD (createFolder db uid name parent) db
  | .upload uid name mime size parent now => okD (uploadFile db uid name mime size parent now) db
  | .uploadMany uid files parent now => okD (uploadMultiple db uid files parent now) db
  | .rename uid fid newName => okD (renameFile db uid fid newName) db
  | .move uid fid target => okD (moveFile db uid fid target) db
  | .copy uid fid target => okD (copyFile db uid fid target) db
  | .share uid fid tu perm now => okD (shareFile db uid fid tu perm now) db
  | .trash uid fid now => okD (trashFile db uid fid now) db
  | .restore uid fid now => okD (restoreFile db uid fid now) db
  | .delete uid fid now => okD (deleteFile db uid fid now) db
  | .emptyTrash uid now => okD (emptyTrash db uid now) db

def applyOps (db : DB) : List Op → DB
  | [] => db
  | op :: rest => applyOps (applyOp db op) rest

/-- A sequence of move requests: (acting user, node, target). -/
def applyMoves (db : DB) : List (Nat × Nat × Option Nat) → DB
  | [] => db
  | (uid, fid, t) :: rest => applyMoves (okD (moveFile db uid fid t) db) rest

/-! Specification-side machinery: the ancestor relation of the parent
graph, expressed through explicit chains, and the structural invariants
the spec calls a forest. -/

/-- cur reaches tgt in exactly k parent-link steps, every visited node
(including tgt) existing in the store. -/
def ReachesIn (db : DB) : Nat → Nat → Nat → Prop
  | 0, cur, tgt => cur = tgt ∧ (findNode db cur).isSome = true
  | k + 1, cur, tgt =>
      ∃ f, findNode db cur = some f ∧
        ∃ p, f.parentFolder = some p ∧ ReachesIn db k p tgt

/-- l is the full visited list of a parent-link walk ending at tgt. -/
def IsPath (db : DB) : List Nat → Nat → Prop
  | [], _ => False
  | c :: rest, tgt =>
    match rest with
    | [] => c = tgt ∧ (findNode db c).isSome = true
    | c2 :: rest2 =>
        (∃ f, findNode db c = some f ∧ f.parentFolder = some c2) ∧
        IsPath db (c2 :: rest2) tgt

/-- Document ids are pairwise distinct (MongoDB ObjectIds are unique). -/
def NodupIds (db : DB) : Prop :=
  (db.nodes.map (fun n => n.id)).Nodup

/-- Every non-null parentFolder references an existing folder document. -/
def parentsAreFolders (db : DB) : Bool :=
  db.nodes.all (fun n =>
    match n.parentFolder with
    | none => true
    | some p => db.nodes.any (fun m => decide (m.id = p) && m.isFolder))

/-- No node is its own (strict) ancestor. -/
def Acyclic (db : DB) : Prop :=
  ∀ x k, 1 ≤ k → ¬ ReachesIn db k x x

/-- The forest well-formedness of a database: unique ids, parent links
resolving to folders, and an acyclic parent graph. -/
structure WF (db : DB) : Prop where
  nodup : NodupIds db
  paf : parentsAreFolders db = true
  acyc : Acyclic db

/-- The folder-size invariant: every folder document stores size 0. -/
def FoldersZero (db : DB) : Prop :=
  ∀ n ∈ db.nodes, n.isFolder = true → n.size = 0

/-! Concrete databases used by counterexamples and witnesses. -/

def emptyDB : DB := { nodes := [], stats := [], nextId := 0 }

/-- User 7's root folder "Docs" created into an empty store. -/
def dbDocs : DB := okD (createFolder emptyDB 7 "Docs" none) emptyDB

/-- Then a 1000-byte "a.txt" uploaded into Docs (stats become 1000). -/
def dbA : DB := okD (uploadFile dbDocs 7 "a.txt" "text/plain" 1000 (some 0) 1) dbDocs

/-- A stats record already at the storage limit. -/
def fullStats : StorageStats :=
  { userId := 7, totalFiles := 0, totalFolders := 0,
    totalSize := storageLimit, usedStorage := storageLimit,
    fileTypeBreakdown := [], lastCalculated := 0 }

/-- A database whose user 7 already has usage at the storage limit. -/
def dbFullStats : DB :=
  { nodes := [], stats := [fullStats], nextId := 0 }

/-- A trashed folder (id 0) and an active file (id 1) of user 7. -/
def dbTrashTarget : DB :=
  { nodes :=
      [ { id := 0, userId := 7, name := "T", originalName := "T",
          type := "folder", size := 0, path := none, parentFolder := none,
          isFolder := true, sharedWith := [], inTrash := true,
          deletedAt := some 1, permanentDeleteAt := some 2 }
      , { id := 1, userId := 7, name := "f.txt", originalName := "f.txt",
          type := "text", size := 3, path := some "f.txt", parentFolder := none,
          isFolder := false, sharedWith := [], inTrash := false,
          deletedAt := none, permanentDeleteAt := none } ]
  , stats := [], nextId := 2 }

/-- A folder (id 0) with a child file (id 1), both of user 7. -/
def dbParentChild : DB :=
  { nodes :=
      [ { id := 0, userId := 7, name := "P", originalName := "P",
          type := "folder", size := 0, path := none, parentFolder := none,
          isFolder := true, sharedWith := [], inTrash := false,
          deletedAt := none, permanentDeleteAt := none }
      , { id := 1, userId := 7, name := "c.txt", originalName := "c.txt",
          type := "text", size := 4, path := some "c.txt", parentFolder := some 0,
          isFolder := false, sharedWith := [], inTrash := false,
          deletedAt := none, permanentDeleteAt := none } ]
  , stats := [], nextId := 2 }

/-- A file of user 1 shared (edit) with user 2, already in trash. -/
def trashedSharedNode : File :=
  { id := 10, userId := 1, name := "n.txt", originalName := "n.txt",
    type := "text", size := 4, path := some "n.txt", parentFolder := none,
    isFolder := false,
    sharedWith := [{ user := 2, permission := Perm.edit, sharedAt := 0 }],
    inTrash := true, deletedAt := some 5, permanentDeleteAt := some 6 }

/-- The same file before being trashed. -/
def sharedNode : File :=
  { trashedSharedNode with inTrash := false, deletedAt := none, permanentDeleteAt := none }

def dbShared : DB := { nodes := [sharedNode], stats := [], nextId := 11 }

/-- A lone non-trashed file "a.txt" of user 7 at root. -/
def fileAtxt : File :=
  { id := 0, userId := 7, name := "a.txt", originalName := "a.txt",
    type := "text", size := 2, path := some "a.txt", parentFolder := none,
    isFolder := false, sharedWith := [], inTrash := false,
    deletedAt := none, permanentDeleteAt := none }

def dbAtxt : DB := { nodes := [fileAtxt], stats := [], nextId := 1 }

/-- A 1000-byte file of user 7 with a stats record matching a full
recomputation. -/
def dbStatsOk : DB :=
  { nodes :=
      [ { id := 0, userId := 7, name := "big.txt", originalName := "big.txt",
          type := "text", size := 1000, path := some "big.txt", parentFolder := none,
          isFolder := false, sharedWith := [], inTrash := false,
          deletedAt := none, permanentDeleteAt := none } ]
  , stats := [computeStats
      { nodes :=
          [ { id := 0, userId := 7, name := "big.txt", originalName := "big.txt",
              type := "text", size := 1000, path := some "big.txt", parentFolder := none,
              isFolder := false, sharedWith := [], inTrash := false,
              deletedAt := none, permanentDeleteAt := none } ]
      , stats := [], nextId := 1 } 7 0]
  , nextId := 1 }

/-- Folder 0 containing folder 1 containing a 5-byte file 2 (user 7):
the nested layout on which calculateFolderSize differs from the
descendant sum. -/
def dbNested : DB :=
  { nodes :=
      [ { id := 0, userId := 7, name := "A", originalName := "A",
          type := "folder", size := 0, path := none, parentFolder := none,
          isFolder := true, sharedWith := [], inTrash := false,
          deletedAt := none, permanentDeleteAt := none }
      , { id := 1, userId := 7, name := "B", originalName := "B",
          type := "folder", size := 0, path := none, parentFolder := some 0,
          isFolder := true, sharedWith := [], inTrash := false,
          deletedAt := none, permanentDeleteAt := none }
      , { id := 2, userId := 7, name := "d.txt", originalName := "d.txt",
          type := "text", size := 5, path := some "d.txt", parentFolder := some 1,
          isFolder := false, sharedWith := [], inTrash := false,
          deletedAt := none, permanentDeleteAt := none } ]
  , stats := [], nextId := 3 }

/-- The files of dbNested whose ancestor chain passes through the given
folder: the descendant files, selected with the code's own chain walker. -/
def descendantFiles (db : DB) (folderId : Nat) : List File :=
  db.nodes.filter (fun n =>
    !n.isFolder && !decide (n.id = folderId) && checkIfSubfolder db n.id folderId)

/-- create "A", create "B", rename B (id 1) to "A": the sequence that
produces two same-named sibling folders. -/
def opsTwoA : List Op :=
  [Op.createFolder 7 "A" none, Op.createFolder 7 "B" none, Op.rename 7 1 "A"]

/-- A trashed file of user 7, for the re-trash claim. -/
def trashedNode : File :=
  { id := 0, userId := 7, name := "t.txt", originalName := "t.txt",
    type := "text", size := 9, path := some "t.txt", parentFolder := none,
    isFolder := false, sharedWith := [], inTrash := true,
    deletedAt := some 3, permanentDeleteAt := some 4 }

def dbTrashed : DB := { nodes := [trashedNode], stats := [], nextId := 1 }

/-- Two folders of user 7: A (id 0) at root and B (id 1) inside A. -/
def folderA : File :=
  { id := 0, userId := 7, name := "A", originalName := "A",
    type := "folder", size := 0, path := none, parentFolder := none,
    isFolder := true, sharedWith := [], inTrash := false,
    deletedAt := none, permanentDeleteAt := none }

def folderB : File :=
  { id := 1, userId := 7, name := "B", originalName := "B",
    type := "folder", size := 0, path := none, parentFolder := some 0,
    isFolder := true, sharedWith := [], inTrash := false,
    deletedAt := none, permanentDeleteAt := none }

def dbTwoFolders : DB := { nodes := [folderA, folderB], stats := [], nextId := 2 }

/-! Basic lemmas about the save hook. -/

theorem applySaveHook_id (n : File) : (applySaveHook n).id = n.id := by
  unfold applySaveHook; split <;> rfl

theorem applySaveHook_userId (n : File) : (applySaveHook n).userId = n.userId := by
  unfold applySaveHook; split <;> rfl

theorem applySaveHook_name (n : File) : (applySaveHook n).name = n.name := by
  unfold applySaveHook; split <;> rfl

theorem applySaveHook_parentFolder (n : File) :
    (applySaveHook n).parentFolder = n.parentFolder := by
  unfold applySaveHook; split <;> rfl

theorem applySaveHook_isFolder (n : File) : (applySaveHook n).isFolder = n.isFolder := by
  unfold applySaveHook; split <;> rfl

theorem applySaveHook_sharedWith (n : File) :
    (applySaveHook n).sharedWith = n.sharedWith := by
  unfold applySaveHook; split <;> rfl

theorem applySaveHook_inTrash (n : File) : (applySaveHook n).inTrash = n.inTrash := by
  unfold applySaveHook; split <;> rfl

theorem applySaveHook_deletedAt (n : File) :
    (applySaveHook n).deletedAt = n.deletedAt := by
  unfold applySaveHook; split <;> rfl

theorem applySaveHook_permanentDeleteAt (n : File) :
    (applySaveHook n).permanentDeleteAt = n.permanentDeleteAt := by
  unfold applySaveHook; split <;> rfl

theorem applySaveHook_size_folder (n : File) (h : n.isFolder = true) :
    (applySaveHook n).size = 0 := by
  unfold applySaveHook; simp [h]

theorem applySaveHook_size_file (n : File) (h : n.isFolder = false) :
    (applySaveHook n).size = n.size := by
  unfold applySaveHook; simp [h]

/-! Lookup lemmas. -/

theorem find?_id_and (l : List File) (h : (l.map (fun n => n.id)).Nodup)
    (fid : Nat) (q : File → Bool) :
    (l.find? (fun n => decide (n.id = fid) && q n)) =
      (match l.find? (fun n => decide (n.id = fid)) with
       | none => none
       | some m => if q m then some m else none) := by
  induction l with
  | nil => rfl
  | cons a t ih =>
    simp only [List.map_cons, List.nodup_cons, List.mem_map] at h
    by_cases ha : a.id = fid
    · by_cases hq : q a = true
      · rw [@List.find?_cons_of_pos File (fun n => decide (n.id = fid) && q n) a t
              (by simp [ha, hq])]
        conv_rhs => rw [@List.find?_cons_of_pos File (fun n => decide (n.id = fid)) a t
              (by simp [ha])]
        simp [hq]
      · rw [@List.find?_cons_of_neg File (fun n => decide (n.id = fid) && q n) a t
              (by simp [ha, hq])]
        conv_rhs => rw [@List.find?_cons_of_pos File (fun n => decide (n.id = fid)) a t
              (by simp [ha])]
        have hnone : t.find? (fun n => decide (n.id = fid) && q n) = none := by
          rw [List.find?_eq_none]
          intro x hx
          simp only [Bool.and_eq_true, decide_eq_true_eq, not_and]
          intro hxid _
          exact absurd ⟨x, hx, hxid.trans ha.symm⟩ h.1
        simp [hnone, hq]
    · rw [@List.find?_cons_of_neg File (fun n => decide (n.id = fid) && q n) a t
            (by simp [ha])]
      conv_rhs => rw [@List.find?_cons_of_neg File (fun n => decide (n.id = fid)) a t
            (by simp [ha])]
      exact ih h.2

theorem findOwned_chr (db : DB) (hn : NodupIds db) (uid fid : Nat) :
    findOwned db uid fid =
      (match findNode db fid with
       | none => none
       | some m => if decide (m.userId = uid) then some m else none) :=
  find?_id_and db.nodes hn fid _

theorem findTarget_chr (db : DB) (hn : NodupIds db) (uid t : Nat) :
    findTarget db uid t =
      (match findNode db t with
       | none => none
       | some m => if decide (m.userId = uid) && m.isFolder then some m else none) :=
  find?_id_and db.nodes hn t _

theorem findTrashed_chr (db : DB) (hn : NodupIds db) (uid fid : Nat) :
    findTrashed db uid fid =
      (match findNode db fid with
       | none => none
       | some m => if decide (m.userId = uid) && m.inTrash then some m else none) :=
  find?_id_and db.nodes hn fid _

theorem find?_id_of_mem (l : List File) (hn : (l.map (fun n => n.id)).Nodup)
    {n : File} (hm : n ∈ l) :
    l.find? (fun m => decide (m.id = n.id)) = some n := by
  induction l with
  | nil => cases hm
  | cons a t ih =>
    simp only [List.map_cons, List.nodup_cons, List.mem_map] at hn
    rcases List.mem_cons.mp hm with h | h
    · subst h
      exact @List.find?_cons_of_pos File (fun m => decide (m.id = n.id)) n t (by simp)
    · rw [@List.find?_cons_of_neg File (fun m => decide (m.id = n.id)) a t
            (by simp only [decide_eq_true_eq]; intro he; exact hn.1 ⟨n, h, he.symm⟩)]
      exact ih hn.2 h

theorem findNode_of_mem (db : DB) (hn : NodupIds db) {n : File} (hm : n ∈ db.nodes) :
    findNode db n.id = some n :=
  find?_id_of_mem db.nodes hn hm

theorem findNode_mem {db : DB} {fid : Nat} {m : File} (h : findNode db fid = some m) :
    m ∈ db.nodes ∧ m.id = fid := by
  refine ⟨List.mem_of_find?_eq_some h, ?_⟩
  have := List.find?_some h
  simpa using this

theorem findOwned_props {db : DB} {uid fid : Nat} {f : File}
    (h : findOwned db uid fid = some f) :
    f ∈ db.nodes ∧ f.id = fid ∧ f.userId = uid := by
  refine ⟨List.mem_of_find?_eq_some h, ?_⟩
  have := List.find?_some h
  simpa using this

theorem findTarget_props {db : DB} {uid t : Nat} {f : File}
    (h : findTarget db uid t = some f) :
    f ∈ db.nodes ∧ f.id = t ∧ f.userId = uid ∧ f.isFolder = true := by
  refine ⟨List.mem_of_find?_eq_some h, ?_⟩
  have := List.find?_some h
  simp at this
  exact ⟨this.1, this.2.1, this.2.2⟩

theorem id_inj (db : DB) (hn : NodupIds db) {m1 m2 : File}
    (h1 : m1 ∈ db.nodes) (h2 : m2 ∈ db.nodes) (he : m1.id = m2.id) : m1 = m2 := by
  have e1 := findNode_of_mem db hn h1
  have e2 := findNode_of_mem db hn h2
  rw [he] at e1
  rw [e1] at e2
  exact Option.some_inj.mp e2

/-! saveNode lemmas. -/

theorem saveNode_nodes_map (db : DB) (n : File) :
    (saveNode db n).nodes =
      db.nodes.map (fun m => if m.id = n.id then applySaveHook n else m) := rfl

theorem findNode_saveNode (db : DB) (n : File) (x : Nat) :
    findNode (saveNode db n) x =
      (findNode db x).map (fun m => if m.id = n.id then applySaveHook n else m) := by
  unfold findNode saveNode
  have hp : ((fun k => decide (k.id = x)) ∘
      (fun m => if m.id = n.id then applySaveHook n else m)) =
      (fun m : File => decide (m.id = x)) := by
    funext m
    by_cases h : m.id = n.id <;> simp [Function.comp_apply, h, applySaveHook_id]
  rw [List.find?_map, hp]

theorem findNode_saveNode_self (db : DB) (hn : NodupIds db) {n n0 : File}
    (hm : n0 ∈ db.nodes) (he : n0.id = n.id) :
    findNode (saveNode db n) n.id = some (applySaveHook n) := by
  rw [findNode_saveNode]
  have := findNode_of_mem db hn hm
  rw [he] at this
  rw [this]
  simp [he]

theorem findNode_saveNode_ne (db : DB) {n : File} {x : Nat} (hx : x ≠ n.id) :
    findNode (saveNode db n) x = findNode db x := by
  rw [findNode_saveNode]
  cases hf : findNode db x with
  | none => rfl
  | some m =>
    have h2 := (findNode_mem hf).2
    show some (if m.id = n.id then applySaveHook n else m) = some m
    rw [if_neg (by rw [h2]; exact hx)]

theorem nodupIds_saveNode (db : DB) (n : File) (hn : NodupIds db) :
    NodupIds (saveNode db n) := by
  unfold NodupIds at hn ⊢
  rw [saveNode_nodes_map, List.map_map]
  have : ((fun m => m.id) ∘ fun m => if m.id = n.id then applySaveHook n else m) =
      fun m : File => m.id := by
    funext m
    by_cases h : m.id = n.id <;> simp [Function.comp, h, applySaveHook_id]
  rw [this]
  exact hn

theorem saveNode_length (db : DB) (n : File) :
    (saveNode db n).nodes.length = db.nodes.length := by
  rw [saveNode_nodes_map, List.length_map]

/-! Stats lemmas. -/

theorem updateUserStats_nodes (db : DB) (uid now : Nat) :
    (updateUserStats db uid now).nodes = db.nodes := rfl

theorem nodupIds_updateUserStats (db : DB) (uid now : Nat) (hn : NodupIds db) :
    NodupIds (updateUserStats db uid now) := hn

theorem computeStats_userId (db : DB) (uid now : Nat) :
    (computeStats db uid now).userId = uid := rfl

theorem findStats_upsert_self (l : List StorageStats) (st : StorageStats) :
    (upsertStats l st).find? (fun s => decide (s.userId = st.userId)) = some st := by
  unfold upsertStats
  by_cases h : l.any (fun s => decide (s.userId = st.userId)) = true
  · rw [if_pos h]
    have hp : ((fun s => decide (s.userId = st.userId)) ∘
        (fun s => if s.userId = st.userId then st else s)) =
        (fun s : StorageStats => decide (s.userId = st.userId)) := by
      funext s
      by_cases hs : s.userId = st.userId <;> simp [Function.comp_apply, hs]
    rw [List.find?_map, hp]
    obtain ⟨s0, hs0mem, hs0⟩ := List.any_eq_true.mp h
    cases hf : l.find? (fun s => decide (s.userId = st.userId)) with
    | none =>
      rw [List.find?_eq_none] at hf
      exact absurd hs0 (hf s0 hs0mem)
    | some s1 =>
      have h1 := List.find?_some hf
      simp only [decide_eq_true_eq] at h1
      simp [h1]
  · rw [if_neg h, List.find?_append]
    have hnone : l.find? (fun s => decide (s.userId = st.userId)) = none := by
      rw [List.find?_eq_none]
      intro x hx hpx
      exact h (List.any_eq_true.mpr ⟨x, hx, hpx⟩)
    rw [hnone]
    simp [List.find?]

theorem findStats_updateUserStats (db : DB) (uid now : Nat) :
    findStats (updateUserStats db uid now) uid = some (computeStats db uid now) := by
  unfold findStats updateUserStats
  exact findStats_upsert_self db.stats (computeStats db uid now)

theorem findNode_updateUserStats (db : DB) (uid now x : Nat) :
    findNode (updateUserStats db uid now) x = findNode db x := rfl

theorem findTrashed_updateUserStats (db : DB) (uid now u fid : Nat) :
    findTrashed (updateUserStats db uid now) u fid = findTrashed db u fid := rfl

/-! Claim C4. -/

/-- C4 is false as stated: a trashed node shared with user 2 (edit) still
grants user 2 the edit permission and passes the download access check;
only the shared-with-me listing hides it.  canEdit and the download query
of files.js never consult inTrash. -/
theorem C4_counterexample :
    trashedSharedNode.inTrash = true ∧
    trashedSharedNode.userId ≠ 2 ∧
    canEdit trashedSharedNode 2 = true ∧
    downloadPred trashedSharedNode 2 = true := by decide

/-- C4 (amended): while a node is in trash it is hidden from the
shared-with-me listing, and trashing leaves the shares list untouched
(so the listing reverts after restore); but the download access check
and canEdit ignore inTrash, so a grantee keeps download and edit access
on a trashed node. -/
theorem C4_trash_sharing (db : DB) (uid fid owner now : Nat) (f : File)
    (hn : NodupIds db) (hf : findOwned db owner fid = some f) :
    (∀ m ∈ db.nodes, m.inTrash = true → m ∉ sharedFiles db uid) ∧
    (∀ m : File, ∀ b : Bool, canEdit { m with inTrash := b } uid = canEdit m uid) ∧
    (∀ m : File, ∀ b : Bool, downloadPred { m with inTrash := b } uid = downloadPred m uid) ∧
    (∀ db', trashFile db owner fid now = .ok db' →
      (findNode db' fid).map (fun m => (m.sharedWith, m.inTrash)) =
        some (f.sharedWith, true)) := by
  obtain ⟨hmem, hid, huid⟩ := findOwned_props hf
  refine ⟨?_, ?_, ?_, ?_⟩
  · intro m _ ht hshared
    unfold sharedFiles at hshared
    rw [List.mem_filter] at hshared
    simp [ht] at hshared
  · intro m b
    rfl
  · intro m b
    rfl
  · intro db' h
    unfold trashFile at h
    rw [hf] at h
    have hdb : db' = updateUserStats (saveNode db (trashedVersion f now)) owner now := by
      cases h
      rfl
    subst hdb
    rw [findNode_updateUserStats]
    have hself := findNode_saveNode_self db hn hmem
      (show f.id = (trashedVersion f now).id from rfl)
    rw [show (trashedVersion f now).id = fid from hid] at hself
    rw [hself]
    simp only [Option.map]
    rw [applySaveHook_sharedWith, applySaveHook_inTrash]
    rfl

/-- Witness for C4 at a concrete shared node. -/
theorem C4_witness :
    (∀ m ∈ dbShared.nodes, m.inTrash = true → m ∉ sharedFiles dbShared 2) ∧
    (∀ m : File, ∀ b : Bool, canEdit { m with inTrash := b } 2 = canEdit m 2) ∧
    (∀ m : File, ∀ b : Bool, downloadPred { m with inTrash := b } 2 = downloadPred m 2) ∧
    (∀ db', trashFile dbShared 1 10 99 = .ok db' →
      (findNode db' 10).map (fun m => (m.sharedWith, m.inTrash)) =
        some (sharedNode.sharedWith, true)) :=
  C4_trash_sharing dbShared 2 10 1 99 sharedNode (by unfold NodupIds; decide) rfl

/-! Claim C5. -/

/-- C5 is false as stated: with a non-trashed same-name, same-kind file
sibling already at root, a second upload of "a.txt" into root succeeds
instead of failing with DuplicateName (uploads perform no duplicate
check at all). -/
theorem C5_counterexample :
    (dbAtxt.nodes.any (fun n => decide (n.userId = 7) && decide (n.name = "a.txt") &&
        !n.isFolder && decide (n.parentFolder = (none : Option Nat)) && !n.inTrash)) = true ∧
    isOk (uploadFile dbAtxt 7 "a.txt" "text/plain" 3 none 0) = true := by decide

/-- C5 (amended): folder creation fails with DuplicateName exactly when a
non-trashed folder sibling with the same trimmed name exists under the
same parent (per-parent, per-kind); file uploads perform no duplicate
check and never fail with DuplicateName. -/
theorem C5_duplicate_scoping (db : DB) (uid : Nat) (name : String)
    (parent : Option Nat) (hname : ¬ strTrim name = "") :
    (createFolder db uid name parent = .error .DuplicateName ↔
      ∃ n ∈ db.nodes, n.userId = uid ∧ n.name = strTrim name ∧ n.isFolder = true ∧
        n.parentFolder = parent ∧ n.inTrash = false) ∧
    (∀ a m s p now, uploadFile db uid a m s p now ≠ .error .DuplicateName) := by
  constructor
  · unfold createFolder
    rw [if_neg hname]
    by_cases hd : dupFolder db uid (strTrim name) parent = true
    · rw [if_pos hd]
      unfold dupFolder at hd
      simp only [List.any_eq_true, Bool.and_eq_true, decide_eq_true_eq,
        Bool.not_eq_true'] at hd
      obtain ⟨n, hmem, ⟨⟨⟨h1, h2⟩, h3⟩, h4⟩, h5⟩ := hd
      simp only [true_iff]
      exact ⟨n, hmem, h1, h2, h3, h4, h5⟩
    · rw [if_neg hd]
      constructor
      · intro h
        cases h
      · intro ⟨n, hmem, h1, h2, h3, h4, h5⟩
        exfalso
        apply hd
        unfold dupFolder
        rw [List.any_eq_true]
        exact ⟨n, hmem, by simp [h1, h2, h3, h4, h5]⟩
  · intro a m s p now hcontra
    unfold uploadFile at hcontra
    split_ifs at hcontra <;> simp_all

/-- Witness for C5 at a concrete database. -/
theorem C5_witness :
    (createFolder dbAtxt 7 "Dup" none = .error .DuplicateName ↔
      ∃ n ∈ dbAtxt.nodes, n.userId = 7 ∧ n.name = strTrim "Dup" ∧ n.isFolder = true ∧
        n.parentFolder = none ∧ n.inTrash = false) ∧
    (∀ a m s p now, uploadFile dbAtxt 7 a m s p now ≠ .error .DuplicateName) :=
  C5_duplicate_scoping dbAtxt 7 "Dup" none (by decide)

/-! Claim C9. -/

/-- C9: rename succeeds for every owned node whose new trimmed name is
non-empty, never fails with DuplicateName, and the sequence create "A",
create "B", rename B to "A" leaves two non-trashed sibling folders both
named "A" at root. -/
theorem C9_rename_no_collision_check :
    (∀ db uid fid newName, ¬ strTrim newName = "" →
        (findOwned db uid fid).isSome = true →
        isOk (renameFile db uid fid newName) = true) ∧
    (∀ db uid fid newName, renameFile db uid fid newName ≠ .error .DuplicateName) ∧
    ((applyOps emptyDB opsTwoA).nodes.filter (fun n =>
        decide (n.name = "A") && n.isFolder && !n.inTrash &&
        decide (n.parentFolder = (none : Option Nat)))).length = 2 := by
  refine ⟨?_, ?_, by decide⟩
  · intro db uid fid newName hname hsome
    unfold renameFile
    rw [if_neg hname]
    cases hfo : findOwned db uid fid with
    | none => rw [hfo] at hsome; simp at hsome
    | some f => rfl
  · intro db uid fid newName hcontra
    unfold renameFile at hcontra
    split_ifs at hcontra
    · cases hcontra
    · revert hcontra
      cases findOwned db uid fid <;> intro hcontra <;> simp at hcontra

/-- Witness for C9: the rename of the lone owned file succeeds, even
though no duplicate check was possible to fail. -/
theorem C9_witness : isOk (renameFile dbAtxt 7 0 "b.txt") = true :=
  C9_rename_no_collision_check.1 dbAtxt 7 0 "b.txt" (by decide) (by decide)

/-! Claim C10. -/

/-- C10: trash does not require the node to be active: re-trashing an
already-trashed owned node succeeds, resets deletedAt to now and the
purge deadline permanentDeleteAt to now plus 30 days. -/
theorem C10_retrash (db : DB) (uid fid now : Nat) (f : File)
    (hn : NodupIds db) (hf : findOwned db uid fid = some f) (ht : f.inTrash = true) :
    isOk (trashFile db uid fid now) = true ∧
    (findNode (okD (trashFile db uid fid now) db) fid).map
        (fun m => (m.inTrash, m.deletedAt, m.permanentDeleteAt)) =
      some (true, some now, some (now + retentionMs)) := by
  obtain ⟨hmem, hid, huid⟩ := findOwned_props hf
  have hstep : trashFile db uid fid now =
      .ok (updateUserStats (saveNode db (trashedVersion f now)) uid now) := by
    unfold trashFile
    rw [hf]
  constructor
  · rw [hstep]; rfl
  · rw [hstep]
    simp only [okD]
    rw [findNode_updateUserStats]
    have hself := findNode_saveNode_self db hn hmem
      (show f.id = (trashedVersion f now).id from rfl)
    rw [show (trashedVersion f now).id = fid from hid] at hself
    rw [hself]
    simp only [Option.map]
    rw [applySaveHook_inTrash, applySaveHook_deletedAt, applySaveHook_permanentDeleteAt]
    rfl

/-- Witness for C10 at a concrete already-trashed node. -/
theorem C10_witness :
    isOk (trashFile dbTrashed 7 0 100) = true ∧
    (findNode (okD (trashFile dbTrashed 7 0 100) dbTrashed) 0).map
        (fun m => (m.inTrash, m.deletedAt, m.permanentDeleteAt)) =
      some (true, some 100, some (100 + retentionMs)) :=
  C10_retrash dbTrashed 7 0 100 trashedNode (by unfold NodupIds; decide) rfl (by decide)

/-! Claim C3. -/

/-- C3 is false as stated: creating a folder under a wholly nonexistent
parent id succeeds (POST /folders performs no parent validation), so the
stored parentId need not reference an existing folder. -/
theorem C3_counterexample :
    findNode emptyDB 999 = none ∧
    isOk (createFolder emptyDB 7 "A" (some 999)) = true ∧
    (findNode (okD (createFolder emptyDB 7 "A" (some 999)) emptyDB) 0).map
        (fun n => n.parentFolder) = some (some 999) := by decide

/-- C3 (amended): only upload validates the parent (owned, non-trashed
folder, else InvalidParent); folder creation performs no parent
validation at all; move requires the target to be an owned folder but
accepts a trashed one; permanent delete removes only the node itself,
leaving children whose parentId references the removed node. -/
theorem C3_parent_integrity (db : DB) (uid : Nat) (a m : String) (s pid now : Nat)
    (name : String) (parent : Option Nat)
    (hp : parentOk db uid (some pid) = false)
    (hname : ¬ strTrim name = "")
    (hdup : dupFolder db uid (strTrim name) parent = false) :
    uploadFile db uid a m s (some pid) now = .error .InvalidParent ∧
    isOk (createFolder db uid name parent) = true ∧
    isOk (moveFile dbTrashTarget 7 1 (some 0)) = true ∧
    (findNode (okD (moveFile dbTrashTarget 7 1 (some 0)) dbTrashTarget) 1).map
        (fun n => n.parentFolder) = some (some 0) ∧
    (findNode dbTrashTarget 0).map (fun n => n.inTrash) = some true ∧
    isOk (deleteFile dbParentChild 7 0 0) = true ∧
    findNode (okD (deleteFile dbParentChild 7 0 0) dbParentChild) 0 = none ∧
    (findNode (okD (deleteFile dbParentChild 7 0 0) dbParentChild) 1).map
        (fun n => n.parentFolder) = some (some 0) := by
  refine ⟨?_, ?_, by decide, by decide, by decide, by decide, by decide, by decide⟩
  · unfold uploadFile
    rw [if_pos (by rw [hp]; rfl)]
  · unfold createFolder
    rw [if_neg hname, if_neg (by rw [hdup]; simp)]
    rfl

/-- Witness for C3 at concrete inputs (nonexistent parent id 42 in the
one-file database). -/
theorem C3_witness :
    uploadFile dbAtxt 7 "x.txt" "text/plain" 1 (some 42) 0 = .error .InvalidParent ∧
    isOk (createFolder dbAtxt 7 "New" (some 42)) = true ∧
    isOk (moveFile dbTrashTarget 7 1 (some 0)) = true ∧
    (findNode (okD (moveFile dbTrashTarget 7 1 (some 0)) dbTrashTarget) 1).map
        (fun n => n.parentFolder) = some (some 0) ∧
    (findNode dbTrashTarget 0).map (fun n => n.inTrash) = some true ∧
    isOk (deleteFile dbParentChild 7 0 0) = true ∧
    findNode (okD (deleteFile dbParentChild 7 0 0) dbParentChild) 0 = none ∧
    (findNode (okD (deleteFile dbParentChild 7 0 0) dbParentChild) 1).map
        (fun n => n.parentFolder) = some (some 0) :=
  C3_parent_integrity dbAtxt 7 "x.txt" "text/plain" 1 42 0 "New" (some 42)
    (by decide) (by decide) (by decide)

/-! Claim C2. -/

/-- C2 is false as stated: the quota is not configurable (there is no
2000-byte quota; the limit is hardcoded), so after the scenario's
1000-byte upload the 1500-byte upload succeeds instead of failing with
QuotaExceeded. -/
theorem C2_counterexample :
    (findStats dbA 7).map (fun s => s.usedStorage) = some 1000 ∧
    isOk (uploadFile dbA 7 "b.txt" "text/plain" 1500 (some 0) 2) = true := by decide

/-- C2 (amended): the quota limit is the hardcoded storageLimit
(16106127360 bytes); a single upload is quota-checked only when a stats
record exists, in which case it succeeds only if usedStorage + size stays
within the limit and otherwise fails with QuotaExceeded, mutating
nothing; when no stats record exists the check is skipped entirely. -/
theorem C2_quota (db : DB) (uid : Nat) (a m : String) (s : Nat)
    (p : Option Nat) (now : Nat) (st : StorageStats)
    (hst : findStats db uid = some st) :
    (isOk (uploadFile db uid a m s p now) = true →
      st.usedStorage + s ≤ storageLimit) ∧
    (parentOk db uid p = true → st.usedStorage + s > storageLimit →
      uploadFile db uid a m s p now = .error .QuotaExceeded) ∧
    (uploadFile db uid a m s p now = .error .QuotaExceeded →
      okD (uploadFile db uid a m s p now) db = db) ∧
    (∀ db2 : DB, findStats db2 uid = none → parentOk db2 uid p = true →
      isOk (uploadFile db2 uid a m s p now) = true) := by
  have hq : quotaBlocked db uid s = decide (st.usedStorage + s > storageLimit) := by
    unfold quotaBlocked
    rw [hst]
  refine ⟨?_, ?_, ?_, ?_⟩
  · intro h
    by_contra hgt
    push_neg at hgt
    have hblocked : quotaBlocked db uid s = true := by
      rw [hq]; simpa using hgt
    unfold uploadFile at h
    by_cases hpar : parentOk db uid p = true
    · rw [if_neg (by rw [hpar]; simp), if_pos hblocked] at h
      cases h
    · rw [if_pos (by simp only [Bool.not_eq_true] at hpar; rw [hpar]; rfl)] at h
      cases h
  · intro hpar hgt
    unfold uploadFile
    rw [if_neg (by rw [hpar]; simp), if_pos (by rw [hq]; simpa using hgt)]
  · intro h
    rw [h]
    rfl
  · intro db2 h2 hpar
    unfold uploadFile
    rw [if_neg (by rw [hpar]; simp),
        if_neg (by unfold quotaBlocked; rw [h2]; simp)]
    rfl

/-- Witness for C2: with usage already at the limit, a 1-byte upload is
rejected with QuotaExceeded and the database is unchanged. -/
theorem C2_witness :
    (isOk (uploadFile dbFullStats 7 "x" "text/plain" 1 none 0) = true →
      fullStats.usedStorage + 1 ≤ storageLimit) ∧
    (parentOk dbFullStats 7 none = true → fullStats.usedStorage + 1 > storageLimit →
      uploadFile dbFullStats 7 "x" "text/plain" 1 none 0 = .error .QuotaExceeded) ∧
    (uploadFile dbFullStats 7 "x" "text/plain" 1 none 0 = .error .QuotaExceeded →
      okD (uploadFile dbFullStats 7 "x" "text/plain" 1 none 0) dbFullStats = dbFullStats) ∧
    (∀ db2 : DB, findStats db2 7 = none → parentOk db2 7 none = true →
      isOk (uploadFile db2 7 "x" "text/plain" 1 none 0) = true) :=
  C2_quota dbFullStats 7 "x" "text/plain" 1 none 0 fullStats rfl

/-! Claim C6. -/

/-- C6: trashing then restoring an owned, active node restores
inTrash = false, deletedAt = null, purgeAt (permanentDeleteAt) = null,
and leaves name, parentId and size as before.  (The stored size of a
well-formed folder is 0, which the save hook re-asserts.) -/
theorem C6_trash_restore (db : DB) (uid fid n1 n2 : Nat) (f : File)
    (hn : NodupIds db) (hf : findOwned db uid fid = some f)
    (hactive : f.inTrash = false) (hz : f.isFolder = true → f.size = 0) :
    ∀ db1, trashFile db uid fid n1 = .ok db1 →
      isOk (restoreFile db1 uid fid n2) = true ∧
      ∀ db2, restoreFile db1 uid fid n2 = .ok db2 →
        (findNode db2 fid).map (fun m =>
          (m.inTrash, m.deletedAt, m.permanentDeleteAt, m.name, m.parentFolder, m.size)) =
        some (false, none, none, f.name, f.parentFolder, f.size) := by
  obtain ⟨hmem, hid, huid⟩ := findOwned_props hf
  intro db1 h1
  have hdb1 : db1 = updateUserStats (saveNode db (trashedVersion f n1)) uid n1 := by
    unfold trashFile at h1
    rw [hf] at h1
    cases h1
    rfl
  subst hdb1
  have hn1 : NodupIds (updateUserStats (saveNode db (trashedVersion f n1)) uid n1) :=
    nodupIds_updateUserStats _ uid n1 (nodupIds_saveNode db _ hn)
  -- the trashed document as found after the first save
  have hfind1 : findNode (updateUserStats (saveNode db (trashedVersion f n1)) uid n1) fid =
      some (applySaveHook (trashedVersion f n1)) := by
    rw [findNode_updateUserStats]
    have hself := findNode_saveNode_self db hn hmem
      (show f.id = (trashedVersion f n1).id from rfl)
    rw [show (trashedVersion f n1).id = fid from hid] at hself
    exact hself
  have htr : findTrashed (updateUserStats (saveNode db (trashedVersion f n1)) uid n1) uid fid =
      some (applySaveHook (trashedVersion f n1)) := by
    rw [findTrashed_chr _ hn1, hfind1]
    simp [applySaveHook_userId, applySaveHook_inTrash, trashedVersion, huid]
  have hstep2 : restoreFile (updateUserStats (saveNode db (trashedVersion f n1)) uid n1) uid fid n2 =
      .ok (updateUserStats
        (saveNode (updateUserStats (saveNode db (trashedVersion f n1)) uid n1)
          (restoredVersion (applySaveHook (trashedVersion f n1)))) uid n2) := by
    unfold restoreFile
    rw [htr]
  constructor
  · rw [hstep2]; rfl
  · intro db2 h2
    rw [hstep2] at h2
    have hdb2 : db2 = updateUserStats
        (saveNode (updateUserStats (saveNode db (trashedVersion f n1)) uid n1)
          (restoredVersion (applySaveHook (trashedVersion f n1)))) uid n2 := by
      cases h2
      rfl
    subst hdb2
    rw [findNode_updateUserStats]
    have hmem1 : applySaveHook (trashedVersion f n1) ∈
        (updateUserStats (saveNode db (trashedVersion f n1)) uid n1).nodes :=
      (findNode_mem hfind1).1
    have hid1 : (applySaveHook (trashedVersion f n1)).id = fid := (findNode_mem hfind1).2
    have hself2 := findNode_saveNode_self
      (updateUserStats (saveNode db (trashedVersion f n1)) uid n1) hn1 hmem1
      (show (applySaveHook (trashedVersion f n1)).id =
        (restoredVersion (applySaveHook (trashedVersion f n1))).id from rfl)
    rw [show (restoredVersion (applySaveHook (trashedVersion f n1))).id = fid from by
      rw [show (restoredVersion (applySaveHook (trashedVersion f n1))).id =
        (applySaveHook (trashedVersion f n1)).id from rfl]
      exact hid1] at hself2
    rw [hself2]
    simp only [Option.map]
    rw [applySaveHook_inTrash, applySaveHook_deletedAt, applySaveHook_permanentDeleteAt,
        applySaveHook_name, applySaveHook_parentFolder]
    have hname : (restoredVersion (applySaveHook (trashedVersion f n1))).name = f.name := by
      rw [show (restoredVersion (applySaveHook (trashedVersion f n1))).name =
        (applySaveHook (trashedVersion f n1)).name from rfl, applySaveHook_name]
      rfl
    have hpar : (restoredVersion (applySaveHook (trashedVersion f n1))).parentFolder =
        f.parentFolder := by
      rw [show (restoredVersion (applySaveHook (trashedVersion f n1))).parentFolder =
        (applySaveHook (trashedVersion f n1)).parentFolder from rfl,
        applySaveHook_parentFolder]
      rfl
    have hsize : (applySaveHook (restoredVersion (applySaveHook (trashedVersion f n1)))).size =
        f.size := by
      cases hfold : f.isFolder with
      | true =>
        rw [applySaveHook_size_folder _ (by
          rw [show (restoredVersion (applySaveHook (trashedVersion f n1))).isFolder =
            (applySaveHook (trashedVersion f n1)).isFolder from rfl,
            applySaveHook_isFolder]
          simpa [trashedVersion] using hfold)]
        rw [hz hfold]
      | false =>
        rw [applySaveHook_size_file _ (by
          rw [show (restoredVersion (applySaveHook (trashedVersion f n1))).isFolder =
            (applySaveHook (trashedVersion f n1)).isFolder from rfl,
            applySaveHook_isFolder]
          simpa [trashedVersion] using hfold)]
        rw [show (restoredVersion (applySaveHook (trashedVersion f n1))).size =
          (applySaveHook (trashedVersion f n1)).size from rfl,
          applySaveHook_size_file _ (by simpa [trashedVersion] using hfold)]
        rfl
    rw [hname, hpar, hsize]
    rfl

/-- Witness for C6: the round trip on the concrete one-file database. -/
theorem C6_witness :
    isOk (restoreFile (okD (trashFile dbAtxt 7 0 11) dbAtxt) 7 0 12) = true ∧
    ∀ db2, restoreFile (okD (trashFile dbAtxt 7 0 11) dbAtxt) 7 0 12 = .ok db2 →
      (findNode db2 0).map (fun m =>
        (m.inTrash, m.deletedAt, m.permanentDeleteAt, m.name, m.parentFolder, m.size)) =
      some (false, none, none, fileAtxt.name, fileAtxt.parentFolder, fileAtxt.size) :=
  C6_trash_restore dbAtxt 7 0 11 12 fileAtxt (by unfold NodupIds; decide) rfl
    (by decide) (by decide) (okD (trashFile dbAtxt 7 0 11) dbAtxt) rfl

/-! Claim C7. -/

theorem statsFresh (db : DB) (uid now : Nat) :
    findStats (updateUserStats db uid now) uid =
      some (computeStats (updateUserStats db uid now) uid now) := by
  rw [findStats_updateUserStats]
  rfl

/-- C7 is false as stated: copy creates a new node carrying the
original's size but never invokes the usage aggregation, leaving the
stored usedStorage at 1000 while a full recomputation yields 2000;
folder creation likewise leaves the stats collection untouched. -/
theorem C7_counterexample :
    isOk (copyFile dbStatsOk 7 0 none) = true ∧
    (findStats (okD (copyFile dbStatsOk 7 0 none) dbStatsOk) 7).map
        (fun s => s.usedStorage) = some 1000 ∧
    (computeStats (okD (copyFile dbStatsOk 7 0 none) dbStatsOk) 7 0).usedStorage = 2000 ∧
    isOk (createFolder dbStatsOk 7 "F" none) = true ∧
    (okD (createFolder dbStatsOk 7 "F" none) dbStatsOk).stats = dbStatsOk.stats := by decide

/-- C7 (amended): the usage aggregation runs after upload, multi-upload,
trash, restore, permanent delete and empty-trash, so after any of those
succeeds the stored stats equal the full recomputation over the
resulting state; copy and folder creation do not invoke it and leave the
stats collection untouched, so after them the stored statistics can
differ from the recomputation. -/
theorem C7_stats_refresh (db : DB) (uid now : Nat) :
    (∀ a m s p db', uploadFile db uid a m s p now = .ok db' →
        findStats db' uid = some (computeStats db' uid now)) ∧
    (∀ files p db', uploadMultiple db uid files p now = .ok db' →
        findStats db' uid = some (computeStats db' uid now)) ∧
    (∀ fid db', trashFile db uid fid now = .ok db' →
        findStats db' uid = some (computeStats db' uid now)) ∧
    (∀ fid db', restoreFile db uid fid now = .ok db' →
        findStats db' uid = some (computeStats db' uid now)) ∧
    (∀ fid db', deleteFile db uid fid now = .ok db' →
        findStats db' uid = some (computeStats db' uid now)) ∧
    (∀ db', emptyTrash db uid now = .ok db' →
        findStats db' uid = some (computeStats db' uid now)) ∧
    (∀ fid t db', copyFile db uid fid t = .ok db' → db'.stats = db.stats) ∧
    (∀ name p db', createFolder db uid name p = .ok db' → db'.stats = db.stats) := by
  refine ⟨?_, ?_, ?_, ?_, ?_, ?_, ?_, ?_⟩
  · intro a m s p db' h
    unfold uploadFile at h
    split_ifs at h
    all_goals cases h
    all_goals exact statsFresh _ uid now
  · intro files p db' h
    unfold uploadMultiple at h
    split_ifs at h
    all_goals cases h
    all_goals exact statsFresh _ uid now
  · intro fid db' h
    unfold trashFile at h
    revert h
    cases findOwned db uid fid <;> intro h
    · cases h
    · cases h
      exact statsFresh _ uid now
  · intro fid db' h
    unfold restoreFile at h
    revert h
    cases findTrashed db uid fid <;> intro h
    · cases h
    · cases h
      exact statsFresh _ uid now
  · intro fid db' h
    unfold deleteFile at h
    revert h
    cases findOwned db uid fid <;> intro h
    · cases h
    · cases h
      exact statsFresh _ uid now
  · intro db' h
    unfold emptyTrash at h
    cases h
    exact statsFresh _ uid now
  · intro fid t db' h
    unfold copyFile at h
    split at h
    · cases h
    · split at h
      · cases h; rfl
      · split at h
        · cases h
        · cases h; rfl
  · intro name p db' h
    unfold createFolder at h
    split_ifs at h
    all_goals cases h
    all_goals rfl

/-- Witness for C7: after a concrete upload the stored stats equal the
recomputation; after a concrete copy the stats rows are untouched. -/
theorem C7_witness :
    findStats (okD (uploadFile dbAtxt 7 "c.txt" "text/plain" 10 none 3) dbAtxt) 7 =
      some (computeStats (okD (uploadFile dbAtxt 7 "c.txt" "text/plain" 10 none 3) dbAtxt) 7 3) ∧
    (okD (copyFile dbStatsOk 7 0 none) dbStatsOk).stats = dbStatsOk.stats :=
  ⟨(C7_stats_refresh dbAtxt 7 3).1 "c.txt" "text/plain" 10 none _ rfl,
   (C7_stats_refresh dbStatsOk 7 0).2.2.2.2.2.2.1 0 none _ rfl⟩

/-! Claim C8. -/

theorem applySaveHook_folder_size (n : File) (h : (applySaveHook n).isFolder = true) :
    (applySaveHook n).size = 0 := by
  rw [applySaveHook_isFolder] at h
  exact applySaveHook_size_folder n h

theorem foldersZero_saveNode (db : DB) (n : File) (h : FoldersZero db) :
    FoldersZero (saveNode db n) := by
  intro m hm hfold
  rw [saveNode_nodes_map] at hm
  obtain ⟨m0, hm0, rfl⟩ := List.mem_map.mp hm
  by_cases he : m0.id = n.id
  · rw [if_pos he] at hfold ⊢
    exact applySaveHook_folder_size n hfold
  · rw [if_neg he] at hfold ⊢
    exact h m0 hm0 hfold

theorem foldersZero_insertNode (db : DB) (n : File) (h : FoldersZero db) :
    FoldersZero (insertNode db n) := by
  intro m hm hfold
  rcases List.mem_append.mp hm with hm' | hm'
  · exact h m hm' hfold
  · rw [List.mem_singleton] at hm'
    subst hm'
    exact applySaveHook_folder_size n hfold

theorem foldersZero_filter (db : DB) (p : File → Bool) (h : FoldersZero db) :
    FoldersZero { db with nodes := db.nodes.filter p } := by
  intro m hm
  exact h m (List.mem_filter.mp hm).1

theorem foldersZero_insertUploads (uid : Nat) (parent : Option Nat)
    (files : List (String × String × Nat)) :
    ∀ db, FoldersZero db → FoldersZero (insertUploads db uid parent files) := by
  induction files with
  | nil => intro db h; exact h
  | cons f rest ih =>
    intro db h
    obtain ⟨nm, mt, sz⟩ := f
    exact ih _ (foldersZero_insertNode db _ h)

theorem foldersZero_applyOp (db : DB) (op : Op) (h : FoldersZero db) :
    FoldersZero (applyOp db op) := by
  cases op with
  | createFolder uid name parent =>
    simp only [applyOp]
    unfold createFolder
    split_ifs
    · exact h
    · exact h
    · exact foldersZero_insertNode db _ h
  | upload uid a m s p now =>
    simp only [applyOp]
    unfold uploadFile
    split_ifs
    · exact h
    · exact h
    · exact foldersZero_insertNode db _ h
  | uploadMany uid files p now =>
    simp only [applyOp]
    unfold uploadMultiple
    split_ifs
    · exact h
    · exact h
    · exact h
    · exact foldersZero_insertUploads uid p files db h
  | rename uid fid newName =>
    simp only [applyOp]
    unfold renameFile
    split_ifs
    · exact h
    · split
      · exact h
      · exact foldersZero_saveNode db _ h
  | move uid fid t =>
    simp only [applyOp]
    unfold moveFile
    split
    · exact h
    · split
      · exact foldersZero_saveNode db _ h
      · split
        · exact h
        · split_ifs
          · exact h
          · exact h
          · exact foldersZero_saveNode db _ h
  | copy uid fid t =>
    simp only [applyOp]
    unfold copyFile
    split
    · exact h
    · split
      · exact foldersZero_insertNode db _ h
      · split
        · exact h
        · exact foldersZero_insertNode db _ h
  | share uid fid tu perm now =>
    simp only [applyOp]
    unfold shareFile
    split_ifs
    · exact h
    · split
      · exact h
      · split_ifs
        · exact h
        · exact foldersZero_saveNode db _ h
  | trash uid fid now =>
    simp only [applyOp]
    unfold trashFile
    split
    · exact h
    · exact foldersZero_saveNode db _ h
  | restore uid fid now =>
    simp only [applyOp]
    unfold restoreFile
    split
    · exact h
    · exact foldersZero_saveNode db _ h
  | delete uid fid now =>
    simp only [applyOp]
    unfold deleteFile
    split
    · exact h
    · exact foldersZero_filter db _ h
  | emptyTrash uid now =>
    simp only [applyOp]
    unfold emptyTrash
    exact foldersZero_filter db _ h

/-- C8 is false in its "descendant" clause: in the nested layout, the
on-demand folder weight calculateFolderSize of the outer folder is 0,
while the sum of its descendant file sizes (files whose ancestor chain
passes through it, computed with the code's own walker) is 5 — the
function sums direct child files only. -/
theorem C8_counterexample :
    calculateFolderSize dbNested 0 = 0 ∧
    ((descendantFiles dbNested 0).map (fun n => n.size)).sum = 5 := by decide

/-- C8 (amended): every folder document stores size 0 at all times — the
save hook forces type "folder" and size 0 on any folder save, folder
creation and copy store size 0, and every operation preserves the
invariant over arbitrary sequences; the on-demand folder weight
calculateFolderSize is the sum of the DIRECT child files' sizes (not of
all descendants) and is never stored on the folder. -/
theorem C8_folder_size (db : DB) (h : FoldersZero db) :
    ∀ ops : List Op, FoldersZero (applyOps db ops) := by
  intro ops
  induction ops generalizing db with
  | nil => exact h
  | cons op rest ih => exact ih (applyOp db op) (foldersZero_applyOp db op h)

/-- Witness for C8: the invariant survives a concrete sequence of
folder-create, copy, move, trash and restore on the nested database. -/
theorem C8_witness :
    FoldersZero (applyOps dbNested
      [Op.createFolder 7 "C" (some 0), Op.copy 7 1 none, Op.move 7 1 (some 0),
       Op.trash 7 2 20, Op.restore 7 2 21]) :=
  C8_folder_size dbNested (by unfold FoldersZero; decide)
    [Op.createFolder 7 "C" (some 0), Op.copy 7 1 none, Op.move 7 1 (some 0),
     Op.trash 7 2 20, Op.restore 7 2 21]

/-! Claim C1: machinery relating the fueled walk checkIfSubfolder to the
ancestor relation, and preservation of the forest invariants by move. -/

theorem reachesIn_zero (db : DB) (cur tgt : Nat) :
    ReachesIn db 0 cur tgt ↔ cur = tgt ∧ (findNode db cur).isSome = true := Iff.rfl

theorem reachesIn_succ (db : DB) (k cur tgt : Nat) :
    ReachesIn db (k + 1) cur tgt ↔
      ∃ f, findNode db cur = some f ∧
        ∃ p, f.parentFolder = some p ∧ ReachesIn db k p tgt := Iff.rfl

theorem isPath_single (db : DB) (c tgt : Nat) :
    IsPath db [c] tgt ↔ c = tgt ∧ (findNode db c).isSome = true := Iff.rfl

theorem isPath_cons2 (db : DB) (c c2 : Nat) (rest : List Nat) (tgt : Nat) :
    IsPath db (c :: c2 :: rest) tgt ↔
      (∃ f, findNode db c = some f ∧ f.parentFolder = some c2) ∧
      IsPath db (c2 :: rest) tgt := Iff.rfl

/-- Soundness of the fueled walk: a true answer exhibits a chain. -/
theorem checkWalk_sound (db : DB) (tgt : Nat) :
    ∀ fuel cur, checkWalk db tgt fuel cur = true → ∃ k, k < fuel ∧ ReachesIn db k cur tgt := by
  intro fuel
  induction fuel with
  | zero => intro cur h; cases h
  | succ fuel ih =>
    intro cur h
    unfold checkWalk at h
    revert h
    cases hf : findNode db cur with
    | none => intro h; cases h
    | some f =>
      dsimp only
      by_cases he : cur = tgt
      · intro _
        exact ⟨0, Nat.succ_pos fuel, he, by rw [hf]; rfl⟩
      · rw [if_neg he]
        cases hp : f.parentFolder with
        | none => intro h; cases h
        | some p =>
          intro h
          obtain ⟨k, hk, hr⟩ := ih p h
          exact ⟨k + 1, Nat.succ_lt_succ hk,
            (reachesIn_succ db k cur tgt).mpr ⟨f, hf, p, hp, hr⟩⟩

/-- Completeness of the fueled walk for chains shorter than the fuel. -/
theorem checkWalk_complete (db : DB) (tgt : Nat) :
    ∀ k cur fuel, ReachesIn db k cur tgt → k < fuel → checkWalk db tgt fuel cur = true := by
  intro k
  induction k with
  | zero =>
    intro cur fuel hr hlt
    obtain ⟨rfl, hsome⟩ := (reachesIn_zero db cur tgt).mp hr
    cases fuel with
    | zero => cases hlt
    | succ fuel =>
      unfold checkWalk
      revert hsome
      cases findNode db cur with
      | none => intro h; cases h
      | some f => intro _; dsimp only; rw [if_pos rfl]
  | succ k ih =>
    intro cur fuel hr hlt
    obtain ⟨f, hf, p, hp, hrest⟩ := (reachesIn_succ db k cur tgt).mp hr
    cases fuel with
    | zero => cases hlt
    | succ fuel =>
      unfold checkWalk
      rw [hf]
      dsimp only
      by_cases he : cur = tgt
      · rw [if_pos he]
      · rw [if_neg he, hp]
        exact ih p fuel hrest (Nat.lt_of_succ_lt_succ hlt)

/-- A chain yields its visited list. -/
theorem reachesIn_toPath (db : DB) (tgt : Nat) :
    ∀ k cur, ReachesIn db k cur tgt →
      ∃ l, IsPath db l tgt ∧ l.head? = some cur ∧ l.length = k + 1 := by
  intro k
  induction k with
  | zero =>
    intro cur hr
    obtain ⟨rfl, hsome⟩ := (reachesIn_zero db cur tgt).mp hr
    exact ⟨[cur], ⟨rfl, hsome⟩, rfl, rfl⟩
  | succ k ih =>
    intro cur hr
    obtain ⟨f, hf, p, hp, hrest⟩ := (reachesIn_succ db k cur tgt).mp hr
    obtain ⟨l, hl, hhead, hlen⟩ := ih p hrest
    cases l with
    | nil => cases hl
    | cons c rest =>
      have hc : c = p := by simpa using hhead
      refine ⟨cur :: c :: rest,
        (isPath_cons2 db cur c rest tgt).mpr ⟨⟨f, hf, by rw [hc]; exact hp⟩, hl⟩, rfl, ?_⟩
      simpa using hlen

/-- A visited list yields the chain between its head and the target. -/
theorem isPath_toReaches (db : DB) (tgt : Nat) :
    ∀ l cur, IsPath db l tgt → l.head? = some cur →
      ReachesIn db (l.length - 1) cur tgt := by
  intro l
  induction l with
  | nil => intro cur h; cases h
  | cons c rest ih =>
    intro cur h hhead
    have hc : c = cur := by simpa using hhead
    subst hc
    cases rest with
    | nil => exact h
    | cons c2 rest2 =>
      obtain ⟨⟨f, hf, hp⟩, htail⟩ := (isPath_cons2 db c c2 rest2 tgt).mp h
      have := ih c2 htail rfl
      exact (reachesIn_succ db (c2 :: rest2).length.pred c tgt).mpr
        ⟨f, hf, c2, hp, by simpa using this⟩

/-- Every element of a path has a node in the store. -/
theorem isPath_mem_node (db : DB) (tgt : Nat) :
    ∀ l, IsPath db l tgt → ∀ x ∈ l, ∃ f, findNode db x = some f := by
  intro l
  induction l with
  | nil => intro h x hx; cases hx
  | cons c rest ih =>
    intro h x hx
    cases rest with
    | nil =>
      obtain ⟨_, hsome⟩ := (isPath_single db c tgt).mp h
      rcases List.mem_singleton.mp hx with rfl
      cases hf : findNode db x with
      | none => rw [hf] at hsome; cases hsome
      | some f => exact ⟨f, rfl⟩
    | cons c2 rest2 =>
      obtain ⟨⟨f, hf, _⟩, htail⟩ := (isPath_cons2 db c c2 rest2 tgt).mp h
      rcases List.mem_cons.mp hx with rfl | hx'
      · exact ⟨f, hf⟩
      · exact ih htail x hx'

/-- A path restricted to a suffix starting at any occurrence. -/
theorem isPath_suffix (db : DB) (tgt : Nat) :
    ∀ l1 x l2, IsPath db (l1 ++ x :: l2) tgt → IsPath db (x :: l2) tgt := by
  intro l1
  induction l1 with
  | nil => intro x l2 h; exact h
  | cons c rest ih =>
    intro x l2 h
    cases hrest : rest ++ x :: l2 with
    | nil => exact absurd hrest (List.append_ne_nil_of_right_ne_nil rest (by simp))
    | cons c2 rest2 =>
      rw [List.cons_append, hrest] at h
      obtain ⟨_, htail⟩ := (isPath_cons2 db c c2 rest2 tgt).mp h
      rw [← hrest] at htail
      exact ih x l2 htail

/-- The prefix of a path up to an occurrence is a path to that element. -/
theorem isPath_toMember (db : DB) (tgt : Nat) :
    ∀ l1 x l2, IsPath db (l1 ++ x :: l2) tgt → IsPath db (l1 ++ [x]) x := by
  intro l1
  induction l1 with
  | nil =>
    intro x l2 h
    have := isPath_mem_node db tgt (x :: l2) h x (by simp)
    obtain ⟨f, hf⟩ := this
    exact ⟨rfl, by rw [hf]; rfl⟩
  | cons c rest ih =>
    intro x l2 h
    cases hrest : rest ++ x :: l2 with
    | nil => exact absurd hrest (List.append_ne_nil_of_right_ne_nil rest (by simp))
    | cons c2 rest2 =>
      rw [List.cons_append, hrest] at h
      obtain ⟨hstep, htail⟩ := (isPath_cons2 db c c2 rest2 tgt).mp h
      rw [← hrest] at htail
      have htail' := ih x l2 htail
      have hhead2 : (rest ++ [x]).head? = some c2 := by
        cases rest with
        | nil => simp at hrest; rw [hrest.1]; rfl
        | cons r rs => simp at hrest; rw [hrest.1]; rfl
      rw [List.cons_append]
      cases hra : rest ++ [x] with
      | nil => exact absurd hra (List.append_ne_nil_of_right_ne_nil rest (by simp))
      | cons d ds =>
        have hd : d = c2 := by rw [hra] at hhead2; simpa using hhead2
        subst hd
        rw [hra] at htail'
        exact (isPath_cons2 db c d ds x).mpr ⟨hstep, htail'⟩

/-- Concatenation of a path ending at x with a path starting at x. -/
theorem isPath_concat (db : DB) (x tgt : Nat) :
    ∀ la lb, IsPath db la x → IsPath db (x :: lb) tgt → IsPath db (la ++ lb) tgt := by
  intro la
  induction la with
  | nil => intro lb h _; cases h
  | cons c rest ih =>
    intro lb h1 h2
    cases rest with
    | nil =>
      obtain ⟨rfl, _⟩ := (isPath_single db c x).mp h1
      simpa using h2
    | cons c2 rest2 =>
      obtain ⟨hstep, htail⟩ := (isPath_cons2 db c c2 rest2 x).mp h1
      have hrec := ih lb htail h2
      rw [List.cons_append] at hrec
      rw [List.cons_append, List.cons_append]
      exact (isPath_cons2 db c c2 (rest2 ++ lb) tgt).mpr ⟨hstep, hrec⟩

theorem not_nodup_split {α : Type} :
    ∀ l : List α, ¬ l.Nodup →
      ∃ l1 : List α, ∃ x : α, ∃ l2 l3 : List α, l = l1 ++ (x :: (l2 ++ (x :: l3))) := by
  intro l
  induction l with
  | nil => intro h; exact absurd List.nodup_nil h
  | cons a t ih =>
    intro h
    rw [List.nodup_cons] at h
    push_neg at h
    by_cases ha : a ∈ t
    · obtain ⟨s, u, rfl⟩ := List.append_of_mem ha
      exact ⟨[], a, s, u, rfl⟩
    · obtain ⟨l1, x, l2, l3, rfl⟩ := ih (h ha)
      exact ⟨a :: l1, x, l2, l3, rfl⟩

/-- A repeated element on a path closes a strict parent-link cycle. -/
theorem isPath_dup_cycle (db : DB) (tgt x : Nat) (l1 l2 l3 : List Nat)
    (h : IsPath db (l1 ++ (x :: (l2 ++ (x :: l3)))) tgt) :
    ReachesIn db (l2.length + 1) x x := by
  have h1 : IsPath db (x :: (l2 ++ x :: l3)) tgt := isPath_suffix db tgt l1 x _ h
  have h2 : IsPath db ((x :: l2) ++ x :: l3) tgt := by
    rw [List.cons_append]
    exact h1
  have h3 : IsPath db ((x :: l2) ++ [x]) x := isPath_toMember db tgt (x :: l2) x l3 h2
  have h4 := isPath_toReaches db x ((x :: l2) ++ [x]) x h3 (by rw [List.cons_append]; rfl)
  simpa using h4

/-- In an acyclic store a path visits pairwise distinct existing nodes,
so its length is bounded by the store size. -/
theorem isPath_length_le (db : DB) (tgt : Nat) (hacyc : Acyclic db) :
    ∀ l, IsPath db l tgt → l.length ≤ db.nodes.length := by
  intro l hl
  by_cases hnd : l.Nodup
  · have hsub : l ⊆ db.nodes.map (fun n => n.id) := by
      intro y hy
      obtain ⟨f, hf⟩ := isPath_mem_node db tgt l hl y hy
      obtain ⟨hmem, hid⟩ := findNode_mem hf
      exact List.mem_map.mpr ⟨f, hmem, hid⟩
    calc l.length = l.toFinset.card := (List.toFinset_card_of_nodup hnd).symm
      _ ≤ (db.nodes.map (fun n => n.id)).toFinset.card := Finset.card_le_card (by
          intro y hy
          rw [List.mem_toFinset] at hy ⊢
          exact hsub hy)
      _ ≤ (db.nodes.map (fun n => n.id)).length := List.toFinset_card_le _
      _ = db.nodes.length := by simp
  · obtain ⟨l1, x, l2, l3, rfl⟩ := not_nodup_split l hnd
    exact absurd (isPath_dup_cycle db tgt x l1 l2 l3 hl)
      (hacyc x (l2.length + 1) (Nat.succ_le_succ (Nat.zero_le _)))

/-- In an acyclic store the fueled walk finds every true ancestor
relation: the fuel db.nodes.length + 1 always suffices. -/
theorem reaches_checkIfSubfolder (db : DB) (hacyc : Acyclic db) (cur tgt : Nat)
    {k : Nat} (hr : ReachesIn db k cur tgt) :
    checkIfSubfolder db cur tgt = true := by
  obtain ⟨l, hl, hhead, hlen⟩ := reachesIn_toPath db tgt k cur hr
  have hle := isPath_length_le db tgt hacyc l hl
  unfold checkIfSubfolder
  exact checkWalk_complete db tgt k cur (db.nodes.length + 1) hr (by omega)

/-- A chain of positive length exhibits an in-edge to the target. -/
theorem reaches_has_inEdge (db : DB) (tgt : Nat) :
    ∀ k cur, ReachesIn db (k + 1) cur tgt →
      ∃ g ∈ db.nodes, g.parentFolder = some tgt := by
  intro k
  induction k with
  | zero =>
    intro cur hr
    obtain ⟨f, hf, p, hp, hrest⟩ := (reachesIn_succ db 0 cur tgt).mp hr
    obtain ⟨rfl, _⟩ := (reachesIn_zero db p tgt).mp hrest
    exact ⟨f, (findNode_mem hf).1, hp⟩
  | succ k ih =>
    intro cur hr
    obtain ⟨f, hf, p, hp, hrest⟩ := (reachesIn_succ db (k + 1) cur tgt).mp hr
    exact ih p hrest

theorem mem_dropLast_split {α : Type} (x : α) :
    ∀ l : List α, x ∈ l.dropLast → ∃ lA lB, l = lA ++ x :: lB ∧ lB ≠ [] := by
  intro l
  induction l with
  | nil => intro h; cases h
  | cons a t ih =>
    intro h
    cases t with
    | nil => cases h
    | cons b u =>
      rcases List.mem_cons.mp (by simpa using h) with rfl | h'
      · exact ⟨[], b :: u, rfl, by simp⟩
      · obtain ⟨lA, lB, heq, hne⟩ := ih h'
        exact ⟨a :: lA, lB, by rw [List.cons_append, heq], hne⟩

theorem findNode_saveNode_isSome (db : DB) (n : File) (x : Nat) :
    (findNode (saveNode db n) x).isSome = (findNode db x).isSome := by
  rw [findNode_saveNode]
  cases findNode db x <;> rfl

/-- A path in the saved store whose non-final elements avoid the saved
id is a path of the original store. -/
theorem isPath_transfer_back (db : DB) (n : File) (tgt : Nat) :
    ∀ l, IsPath (saveNode db n) l tgt → (∀ y ∈ l.dropLast, y ≠ n.id) →
      IsPath db l tgt := by
  intro l
  induction l with
  | nil => intro h _; cases h
  | cons c rest ih =>
    intro h hy
    cases rest with
    | nil =>
      obtain ⟨rfl, hsome⟩ := (isPath_single _ c tgt).mp h
      exact ⟨rfl, by rw [← findNode_saveNode_isSome db n]; exact hsome⟩
    | cons c2 rest2 =>
      obtain ⟨⟨f, hf, hp⟩, htail⟩ := (isPath_cons2 _ c c2 rest2 tgt).mp h
      have hcne : c ≠ n.id := hy c (by simp)
      rw [findNode_saveNode_ne db hcne] at hf
      refine (isPath_cons2 db c c2 rest2 tgt).mpr ⟨⟨f, hf, hp⟩, ?_⟩
      refine ih htail (fun y hy' => hy y ?_)
      simpa using Or.inr hy'

/-- Every non-final element of a path steps to a parent. -/
theorem isPath_step_of_mem_dropLast (db : DB) (tgt : Nat) :
    ∀ l, IsPath db l tgt → ∀ x ∈ l.dropLast,
      ∃ f p, findNode db x = some f ∧ f.parentFolder = some p := by
  intro l
  induction l with
  | nil => intro h x hx; cases hx
  | cons c rest ih =>
    intro h x hx
    cases rest with
    | nil => cases hx
    | cons c2 rest2 =>
      obtain ⟨⟨f, hf, hp⟩, htail⟩ := (isPath_cons2 _ c c2 rest2 tgt).mp h
      rcases List.mem_cons.mp (by simpa using hx) with rfl | hx'
      · exact ⟨f, c2, hf, hp⟩
      · exact ih htail x hx'

/-- A cycle whose visited list passes through v yields a cycle based
at v. -/
theorem cycle_rebase (db : DB) (x v : Nat) (l : List Nat)
    (hl : IsPath db l x) (hhead : l.head? = some x) (hlen : 2 ≤ l.length)
    (hv : v ∈ l) : ∃ k', 1 ≤ k' ∧ ReachesIn db k' v v := by
  obtain ⟨lA, lB, rfl⟩ := List.append_of_mem hv
  cases lA with
  | nil =>
    have hx : v = x := by simpa using hhead
    subst hx
    have hb : 1 ≤ lB.length := by simpa using hlen
    have hr := isPath_toReaches db v ([] ++ v :: lB) v hl (by rfl)
    exact ⟨([] ++ v :: lB).length - 1, by simpa using hb, hr⟩
  | cons a lA' =>
    have ha : a = x := by simpa using hhead
    subst ha
    have hsuf : IsPath db (v :: lB) a := isPath_suffix db a (a :: lA') v lB hl
    have hpre : IsPath db ((a :: lA') ++ [v]) v := isPath_toMember db a (a :: lA') v lB hl
    rw [List.cons_append] at hpre
    have hcat := isPath_concat db a v (v :: lB) (lA' ++ [v]) hsuf hpre
    have hr := isPath_toReaches db v ((v :: lB) ++ (lA' ++ [v])) v hcat
      (by rw [List.cons_append]; rfl)
    refine ⟨((v :: lB) ++ (lA' ++ [v])).length - 1, ?_, hr⟩
    simp [List.length_append]
    omega

/-- Moving a node to root never creates a cycle. -/
theorem acyclic_saveNode_root (db : DB) (n : File) (hn : NodupIds db)
    (hm0 : ∃ m ∈ db.nodes, m.id = n.id) (hroot : n.parentFolder = none)
    (hacyc : Acyclic db) : Acyclic (saveNode db n) := by
  intro x k hk hr
  obtain ⟨l, hl, hhead, hlen⟩ := reachesIn_toPath (saveNode db n) x k x hr
  by_cases hdrop : ∀ y ∈ l.dropLast, y ≠ n.id
  · have hl' := isPath_transfer_back db n x l hl hdrop
    have hrdb := isPath_toReaches db x l x hl' hhead
    rw [hlen] at hrdb
    exact hacyc x k hk (by simpa using hrdb)
  · push_neg at hdrop
    obtain ⟨y, hy, rfl⟩ := hdrop
    obtain ⟨f, p, hf, hp⟩ := isPath_step_of_mem_dropLast (saveNode db n) x l hl _ hy
    obtain ⟨m0, hm0mem, hm0id⟩ := hm0
    rw [findNode_saveNode_self db hn hm0mem hm0id] at hf
    cases hf
    rw [applySaveHook_parentFolder, hroot] at hp
    cases hp

/-- Moving a node under target tg never creates a cycle, provided the
code's subfolder walk from tg does not meet the node. -/
theorem acyclic_saveNode_into (db : DB) (n : File) (tg : Nat) (hn : NodupIds db)
    (hm0 : ∃ m ∈ db.nodes, m.id = n.id) (hpar : n.parentFolder = some tg)
    (hne : tg ≠ n.id) (hchk : checkIfSubfolder db tg n.id = false)
    (hacyc : Acyclic db) : Acyclic (saveNode db n) := by
  obtain ⟨m0, hm0mem, hm0id⟩ := hm0
  have hbase : ∀ k, 1 ≤ k → ¬ ReachesIn (saveNode db n) k n.id n.id := by
    intro k
    induction k using Nat.strong_induction_on with
    | _ k ih =>
      intro hk hr
      cases k with
      | zero => exact absurd hk (by omega)
      | succ k' =>
        obtain ⟨g, hg, p, hp, hrest⟩ := (reachesIn_succ _ k' n.id n.id).mp hr
        rw [findNode_saveNode_self db hn hm0mem hm0id] at hg
        cases hg
        rw [applySaveHook_parentFolder, hpar] at hp
        cases hp
        obtain ⟨l', hl', hhead', hlen'⟩ := reachesIn_toPath (saveNode db n) n.id k' tg hrest
        by_cases hdrop : ∀ y ∈ l'.dropLast, y ≠ n.id
        · have hl'' := isPath_transfer_back db n n.id l' hl' hdrop
          have hrdb := isPath_toReaches db n.id l' tg hl'' hhead'
          exact absurd (reaches_checkIfSubfolder db hacyc tg n.id hrdb)
            (by rw [hchk]; simp)
        · push_neg at hdrop
          obtain ⟨y, hy, hyid⟩ := hdrop
          subst hyid
          obtain ⟨lA, lB, hsplit, hBne⟩ := mem_dropLast_split _ l' hy
          have hpre : IsPath (saveNode db n) (lA ++ [n.id]) n.id := by
            rw [hsplit] at hl'
            exact isPath_toMember _ n.id lA n.id lB hl'
          have hheadA : (lA ++ [n.id]).head? = some tg := by
            cases lA with
            | nil =>
              rw [hsplit] at hhead'
              have hyt : n.id = tg := by simpa using hhead'
              exact absurd hyt.symm hne
            | cons a lA' =>
              rw [hsplit] at hhead'
              have ha : a = tg := by simpa using hhead'
              rw [List.cons_append]
              simpa using ha
          have hreA := isPath_toReaches _ n.id (lA ++ [n.id]) tg hpre hheadA
          have hcycle : ReachesIn (saveNode db n) ((lA ++ [n.id]).length - 1 + 1) n.id n.id :=
            (reachesIn_succ _ _ n.id n.id).mpr
              ⟨applySaveHook n, findNode_saveNode_self db hn hm0mem hm0id,
               tg, by rw [applySaveHook_parentFolder, hpar], hreA⟩
          have hlenA : (lA ++ [n.id]).length - 1 + 1 = lA.length + 1 := by
            simp [List.length_append]
          have hlb : 1 ≤ lB.length := List.length_pos.mpr hBne
          have h1 : l'.length = lA.length + (lB.length + 1) := by
            rw [hsplit]
            simp [List.length_append]
          have hlt : lA.length + 1 < k' + 1 := by omega
          rw [hlenA] at hcycle
          exact ih (lA.length + 1) hlt (by omega) hcycle
  intro x k hk hr
  obtain ⟨l, hl, hhead, hlen⟩ := reachesIn_toPath (saveNode db n) x k x hr
  by_cases hmem : n.id ∈ l
  · have hlen2 : 2 ≤ l.length := by omega
    obtain ⟨k', hk', hcyc⟩ := cycle_rebase (saveNode db n) x n.id l hl hhead hlen2 hmem
    exact hbase k' hk' hcyc
  · have hdrop : ∀ y ∈ l.dropLast, y ≠ n.id := by
      intro y hy he
      exact hmem (he ▸ (List.dropLast_sublist l).subset hy)
    have hl' := isPath_transfer_back db n x l hl hdrop
    have hrdb := isPath_toReaches db x l x hl' hhead
    rw [hlen] at hrdb
    exact hacyc x k hk (by simpa using hrdb)

theorem paf_node_check (l : List File) (m : File)
    (h : ∀ p, m.parentFolder = some p →
      l.any (fun x => decide (x.id = p) && x.isFolder) = true) :
    (match m.parentFolder with
     | none => true
     | some p => l.any (fun x => decide (x.id = p) && x.isFolder)) = true := by
  cases hp : m.parentFolder with
  | none => rfl
  | some p => exact h p hp

theorem paf_resolve (db : DB) (hpaf : parentsAreFolders db = true) {m : File}
    (hm : m ∈ db.nodes) {p : Nat} (hp : m.parentFolder = some p) :
    ∃ tf ∈ db.nodes, tf.id = p ∧ tf.isFolder = true := by
  unfold parentsAreFolders at hpaf
  rw [List.all_eq_true] at hpaf
  have h1 := hpaf m hm
  rw [hp] at h1
  have h2 : db.nodes.any (fun x => decide (x.id = p) && x.isFolder) = true := h1
  rw [List.any_eq_true] at h2
  obtain ⟨tf, htf, hprop⟩ := h2
  simp only [Bool.and_eq_true, decide_eq_true_eq] at hprop
  exact ⟨tf, htf, hprop.1, hprop.2⟩

/-- parentsAreFolders is preserved by saving node n, provided n's own new
parent (if any) is a distinct existing folder, and any in-edge onto n is
only possible when n is a folder. -/
theorem paf_saveNode (db : DB) (n : File) (hn : NodupIds db)
    (hpaf : parentsAreFolders db = true)
    (hfold : n.isFolder = true ∨
      ∀ m ∈ db.nodes, ∀ q, m.parentFolder = some q → q ≠ n.id)
    (hok : ∀ p, n.parentFolder = some p → p ≠ n.id ∧
      ∃ tf ∈ db.nodes, tf.id = p ∧ tf.isFolder = true) :
    parentsAreFolders (saveNode db n) = true := by
  have hwit : ∀ p, (∃ tf ∈ db.nodes, tf.id = p ∧ tf.isFolder = true ∧
      (tf.id = n.id → n.isFolder = true)) →
      (saveNode db n).nodes.any (fun x => decide (x.id = p) && x.isFolder) = true := by
    rintro p ⟨tf, htf, hid, hfo, hcond⟩
    rw [saveNode_nodes_map, List.any_eq_true]
    refine ⟨if tf.id = n.id then applySaveHook n else tf,
      List.mem_map.mpr ⟨tf, htf, rfl⟩, ?_⟩
    by_cases ht : tf.id = n.id
    · rw [if_pos ht]
      simp only [Bool.and_eq_true, decide_eq_true_eq]
      exact ⟨by rw [applySaveHook_id, ← ht, hid],
             by rw [applySaveHook_isFolder]; exact hcond ht⟩
    · rw [if_neg ht]
      simp only [Bool.and_eq_true, decide_eq_true_eq]
      exact ⟨hid, hfo⟩
  unfold parentsAreFolders
  rw [List.all_eq_true]
  intro m' hm'
  rw [saveNode_nodes_map] at hm'
  obtain ⟨m, hm, rfl⟩ := List.mem_map.mp hm'
  by_cases he : m.id = n.id
  · rw [if_pos he]
    apply paf_node_check
    intro p hp
    rw [applySaveHook_parentFolder] at hp
    obtain ⟨hpne, tf, htf, hid, hfo⟩ := hok p hp
    exact hwit p ⟨tf, htf, hid, hfo,
      fun hteq => absurd (hid.symm.trans hteq) hpne⟩
  · rw [if_neg he]
    apply paf_node_check
    intro p hp
    obtain ⟨tf, htf, hid, hfo⟩ := paf_resolve db hpaf hm hp
    refine hwit p ⟨tf, htf, hid, hfo, fun hteq => ?_⟩
    rcases hfold with hnf | hnoedge
    · exact hnf
    · exact absurd (hid.symm.trans hteq) (hnoedge m hm p hp)

/-- If a node that is not a folder has identity fid, nothing in a
well-formed store points at fid. -/
theorem file_no_inEdge (db : DB) (hn : NodupIds db) (hpaf : parentsAreFolders db = true)
    {f : File} (hmem : f ∈ db.nodes) (hff : ¬ f.isFolder = true)
    {m : File} (hm : m ∈ db.nodes) {q : Nat} (hq : m.parentFolder = some q) :
    q ≠ f.id := by
  intro hqe
  obtain ⟨tf, htf, hid', hfo'⟩ := paf_resolve db hpaf hm hq
  have heq : tf = f := id_inj db hn htf hmem (by rw [hid']; exact hqe)
  rw [heq] at hfo'
  exact hff hfo'

/-- A single move request, successful or not, preserves the forest
well-formedness. -/
theorem WF_moveFile (db : DB) (uid fid : Nat) (t : Option Nat) (hwf : WF db) :
    WF (okD (moveFile db uid fid t) db) := by
  cases hfo : findOwned db uid fid with
  | none =>
    have hstep : moveFile db uid fid t = .error .NotFound := by
      unfold moveFile; rw [hfo]
    rw [hstep]
    exact hwf
  | some f =>
    obtain ⟨hmem, hid, huid⟩ := findOwned_props hfo
    have hfoldDisj : ∀ n0 : File, n0.isFolder = f.isFolder → n0.id = f.id →
        (n0.isFolder = true ∨
          ∀ m ∈ db.nodes, ∀ q, m.parentFolder = some q → q ≠ n0.id) := by
      intro n0 hiso hido
      by_cases hff : f.isFolder = true
      · exact Or.inl (by rw [hiso]; exact hff)
      · refine Or.inr (fun m hm q hq => ?_)
        rw [hido]
        exact file_no_inEdge db hwf.nodup hwf.paf hmem hff hm hq
    cases t with
    | none =>
      have hstep : moveFile db uid fid none =
          .ok (saveNode db { f with parentFolder := none }) := by
        unfold moveFile; rw [hfo]
      rw [hstep]
      refine ⟨nodupIds_saveNode db _ hwf.nodup, ?_, ?_⟩
      · exact paf_saveNode db _ hwf.nodup hwf.paf (hfoldDisj _ rfl rfl)
          (fun p hp => absurd hp (by simp))
      · exact acyclic_saveNode_root db _ hwf.nodup ⟨f, hmem, rfl⟩ rfl hwf.acyc
    | some tg =>
      cases hft : findTarget db uid tg with
      | none =>
        have hstep : moveFile db uid fid (some tg) = .error .NotFound := by
          unfold moveFile; rw [hfo]; dsimp only; rw [hft]
        rw [hstep]
        exact hwf
      | some tf =>
        obtain ⟨htfmem, htfid, htfuid, htffold⟩ := findTarget_props hft
        by_cases hc1 : (f.isFolder && decide (fid = tg)) = true
        · have hstep : moveFile db uid fid (some tg) = .error .InvalidMove := by
            simp only [moveFile, hfo, hft]
            rw [if_pos hc1]
          rw [hstep]
          exact hwf
        · by_cases hc2 : (f.isFolder && checkIfSubfolder db tg fid) = true
          · have hstep : moveFile db uid fid (some tg) = .error .CyclicMove := by
              simp only [moveFile, hfo, hft]
              rw [if_neg hc1, if_pos hc2]
            rw [hstep]
            exact hwf
          · have hstep : moveFile db uid fid (some tg) =
                .ok (saveNode db { f with parentFolder := some tg }) := by
              simp only [moveFile, hfo, hft]
              rw [if_neg hc1, if_neg hc2]
            rw [hstep]
            have hne : tg ≠ f.id := by
              intro hteq
              have htf_f : tf = f := id_inj db hwf.nodup htfmem hmem (by rw [htfid, hteq])
              have hffold : f.isFolder = true := by rw [← htf_f]; exact htffold
              apply hc1
              rw [hffold]
              simp only [Bool.true_and, decide_eq_true_eq]
              rw [← hid, ← hteq]
            have hchk : checkIfSubfolder db tg fid = false := by
              cases hcase : checkIfSubfolder db tg fid with
              | false => rfl
              | true =>
                exfalso
                by_cases hff : f.isFolder = true
                · exact hc2 (by rw [hff, hcase]; rfl)
                · obtain ⟨k, hk, hr⟩ := checkWalk_sound db fid _ tg hcase
                  cases k with
                  | zero =>
                    obtain ⟨heq, _⟩ := (reachesIn_zero db tg fid).mp hr
                    exact hne (heq.trans hid.symm)
                  | succ k' =>
                    obtain ⟨g, hgmem, hgp⟩ := reaches_has_inEdge db fid k' tg hr
                    have hq := file_no_inEdge db hwf.nodup hwf.paf hmem hff hgmem hgp
                    exact hq hid.symm
            refine ⟨nodupIds_saveNode db _ hwf.nodup, ?_, ?_⟩
            · refine paf_saveNode db _ hwf.nodup hwf.paf (hfoldDisj _ rfl rfl) ?_
              intro p hp
              have hptg : p = tg := by
                have hp' : some tg = some p := hp
                exact (Option.some_inj.mp hp').symm
              subst hptg
              exact ⟨fun hpe => hne hpe, ⟨tf, htfmem, htfid, htffold⟩⟩
            · refine acyclic_saveNode_into db _ tg hwf.nodup ⟨f, hmem, rfl⟩ rfl
                (fun hteq => hne hteq) ?_ hwf.acyc
              have hsid : ({ f with parentFolder := some tg } : File).id = fid := hid
              rw [hsid]
              exact hchk

/-- Sequences of move requests preserve forest well-formedness. -/
theorem WF_applyMoves (db : DB) (hwf : WF db) :
    ∀ ms : List (Nat × Nat × Option Nat), WF (applyMoves db ms) := by
  intro ms
  induction ms generalizing db with
  | nil => exact hwf
  | cons mv rest ih =>
    obtain ⟨uid, fid, t⟩ := mv
    exact ih (okD (moveFile db uid fid t) db) (WF_moveFile db uid fid t hwf)

/-- A numeric rank decreasing along parent links certifies acyclicity. -/
theorem acyclic_of_rank (db : DB) (r : Nat → Nat)
    (h : ∀ c f p, findNode db c = some f → f.parentFolder = some p → r p < r c) :
    Acyclic db := by
  have key : ∀ k c tgt, ReachesIn db k c tgt → 1 ≤ k → r tgt < r c := by
    intro k
    induction k with
    | zero => intro c tgt _ hk; exact absurd hk (by omega)
    | succ k ih =>
      intro c tgt hr _
      obtain ⟨f, hf, p, hp, hrest⟩ := (reachesIn_succ db k c tgt).mp hr
      have hpc := h c f p hf hp
      cases k with
      | zero =>
        obtain ⟨rfl, _⟩ := (reachesIn_zero db p tgt).mp hrest
        exact hpc
      | succ k' => exact lt_trans (ih p tgt hrest (by omega)) hpc
  intro x k hk hr
  exact absurd (key k x x hr hk) (lt_irrefl _)

/-- The two-folder database is a well-formed forest. -/
theorem WF_dbTwoFolders : WF dbTwoFolders := by
  refine ⟨by unfold NodupIds; decide, by decide, ?_⟩
  apply acyclic_of_rank dbTwoFolders (fun i => i)
  intro c f p hf hp
  have hc : c = 0 ∨ c = 1 := by
    by_contra hcon
    push_neg at hcon
    obtain ⟨h0, h1⟩ := hcon
    have hnone : findNode dbTwoFolders c = none := by
      unfold findNode dbTwoFolders
      rw [List.find?_eq_none]
      intro nn hnn
      simp only [List.mem_cons, List.mem_singleton] at hnn
      rcases hnn with rfl | rfl | hf'
      · simp only [decide_eq_true_eq]
        intro he
        exact h0 (by rw [← he]; rfl)
      · simp only [decide_eq_true_eq]
        intro he
        exact h1 (by rw [← he]; rfl)
      · cases hf'
    rw [hnone] at hf
    cases hf
  rcases hc with rfl | rfl
  · have he : findNode dbTwoFolders 0 = some folderA := by decide
    rw [he] at hf
    cases hf
    have hA : folderA.parentFolder = none := by decide
    rw [hA] at hp
    cases hp
  · have he : findNode dbTwoFolders 1 = some folderB := by decide
    rw [he] at hf
    cases hf
    have hB : folderB.parentFolder = some 0 := by decide
    rw [hB] at hp
    cases hp
    decide

/-- C1: on a user's tree forming a well-formed forest (unique ids,
parent links resolving to folders, acyclic), a move whose resolved
target folder's ancestor chain — walked exactly as checkIfSubfolder
walks it — contains the moved node fails with CyclicMove and leaves the
database unchanged; and every sequence of move requests preserves the
forest, so no node is ever its own ancestor. -/
theorem C1_move_acyclic (db : DB) (hwf : WF db) :
    (∀ uid fid tg f tf, findOwned db uid fid = some f →
       findTarget db uid tg = some tf → fid ≠ tg →
       checkIfSubfolder db tg fid = true →
       moveFile db uid fid (some tg) = .error .CyclicMove ∧
       okD (moveFile db uid fid (some tg)) db = db) ∧
    (∀ ms : List (Nat × Nat × Option Nat), WF (applyMoves db ms) ∧
       ∀ x k, 1 ≤ k → ¬ ReachesIn (applyMoves db ms) k x x) := by
  constructor
  · intro uid fid tg f tf hfo hft hnet hchk
    obtain ⟨hmem, hid, huid⟩ := findOwned_props hfo
    have hffold : f.isFolder = true := by
      obtain ⟨k, hk, hr⟩ := checkWalk_sound db fid _ tg hchk
      cases k with
      | zero =>
        obtain ⟨heq, _⟩ := (reachesIn_zero db tg fid).mp hr
        exact absurd heq.symm hnet
      | succ k' =>
        obtain ⟨g, hgmem, hgp⟩ := reaches_has_inEdge db fid k' tg hr
        obtain ⟨tf2, htf2, hid2, hfo2⟩ := paf_resolve db hwf.paf hgmem hgp
        have htf2f : tf2 = f := id_inj db hwf.nodup htf2 hmem (by rw [hid2, hid])
        rw [htf2f] at hfo2
        exact hfo2
    have hstep : moveFile db uid fid (some tg) = .error .CyclicMove := by
      simp only [moveFile, hfo, hft]
      rw [if_neg (by simp [hnet]), if_pos (by rw [hffold, hchk]; rfl)]
    exact ⟨hstep, by rw [hstep]; rfl⟩
  · intro ms
    have hwf' := WF_applyMoves db hwf ms
    exact ⟨hwf', hwf'.acyc⟩

/-- Witness for C1: moving folder A into its child folder B is rejected
with CyclicMove on the concrete two-folder forest, and the forest
survives every move sequence. -/
theorem C1_witness :
    (moveFile dbTwoFolders 7 0 (some 1) = .error .CyclicMove ∧
     okD (moveFile dbTwoFolders 7 0 (some 1)) dbTwoFolders = dbTwoFolders) ∧
    (∀ ms : List (Nat × Nat × Option Nat), WF (applyMoves dbTwoFolders ms) ∧
       ∀ x k, 1 ≤ k → ¬ ReachesIn (applyMoves dbTwoFolders ms) k x x) :=
  ⟨(C1_move_acyclic dbTwoFolders WF_dbTwoFolders).1 7 0 1 folderA folderB
      rfl rfl (by decide) (by decide),
   (C1_move_acyclic dbTwoFolders WF_dbTwoFolders).2⟩

end Storage
